import Mathlib

/-!
# Arch-Installer: terminal UI substrate

A shallow embedding of the layer compositor (`Renderer.h`), the selectable list
(`Menu.h`), the process runner and file writer (`CLI.h`) and the steps of the installer
(`Installer.h`), followed by the properties established about them.

Conventions of the embedding:

* `std::vector<T>` is a `List T`, `std::string` is a `List Char`;
* `int` values, among them the handles (`using WinHandle = int;`), are `Int`, and
  `unsigned int` values are `Nat`; the two conversions the
  code performs (`int` to `unsigned int`, `size_t` to `unsigned int`) are written
  out with an explicit reduction modulo `2 ^ 32`;
* a member function acts on an explicit state value and returns the new state;
* a call that throws, runs into undefined behaviour (an out-of-range `operator[]`,
  `erase(end())`) or never returns yields a `Fault` in the `Except` monad.
-/

namespace ArchInstaller

/-! ## Faults -/

/-- The ways a call can end other than by returning normally. -/
inductive Fault where
  /-- The exception `std::bad_alloc` was thrown. -/
  | bad_alloc
  /-- The exception `std::system_error` was thrown. -/
  | system_error
  /-- The behaviour is undefined: `operator[]` out of range or `erase(end())`. -/
  | undefined
  /-- The recursion never bottoms out. -/
  | diverges
  /-- The exception `std::out_of_range` was thrown. -/
  | out_of_range
  /-- The exception `std::runtime_error` was thrown. -/
  | runtime_error
deriving DecidableEq, Repr

/-! ## Renderer.h -/

/-- An ncurses `WINDOW*`; the value `0` is `nullptr`. -/
abbrev WINDOW := Nat

/-- The struct `LayerProp`. -/
structure LayerProp where
  layer : WINDOW
  order : Int
  height : Int
  width : Int
  starty : Int
  startx : Int
  parent : Int := -1
  child : Int := -1
deriving DecidableEq, Repr

/-- The data members of `class Renderer`; the default value is the freshly
constructed object (`Renderer() = default`). -/
structure Renderer where
  m_Layers : List LayerProp := []
  m_OrderVector : List Int := []
  m_Running : Bool := true
deriving DecidableEq, Repr

/-- Conversion of an `int` to `unsigned int`. -/
def toUnsigned (x : Int) : Nat := (x % 2 ^ 32).toNat

/-- The expression `m_Layers[handle]` read: the `int` index is converted to `size_t`, so
a negative index lands out of range like a too large one. -/
def layerAt (ls : List LayerProp) (handle : Int) : Except Fault LayerProp :=
  match ls[handle.toNat]? with
  | some l => if 0 ≤ handle then .ok l else .error .undefined
  | none => .error .undefined

/-- The assignment `m_Layers[handle].child = c`. -/
def setChild (ls : List LayerProp) (handle : Int) (c : Int) :
    Except Fault (List LayerProp) :=
  match layerAt ls handle with
  | .ok l => .ok (ls.set handle.toNat { l with child := c })
  | .error e => .error e

/-- The assignment `m_Layers[handle].order = o`. -/
def setOrder (ls : List LayerProp) (handle : Int) (o : Int) :
    Except Fault (List LayerProp) :=
  match layerAt ls handle with
  | .ok l => .ok (ls.set handle.toNat { l with order := o })
  | .error e => .error e

/-- The loop `for (int i = 0; i < m_OrderVector.size(); ++i)
m_Layers[m_OrderVector[i]].order = i + 1;` of `ChangeLayerOrder`, entered at index `i`
with `rest` the part of `m_OrderVector` from index `i` on. -/
def updateOrders : Nat → List Int → List LayerProp → Except Fault (List LayerProp)
  | _, [], ls => .ok ls
  | i, h :: rest, ls =>
    match setOrder ls h (i + 1) with
    | .ok ls1 => updateOrders (i + 1) rest ls1
    | .error e => .error e

/-- The call `v.insert(v.begin() + k, x)` on a `std::vector`. -/
def vecInsert (v : List Int) (k : Nat) (x : Int) : List Int :=
  v.take k ++ x :: v.drop k

/-- The clamping lines of `ChangeLayerOrder`:
`newOrder = std::min(newOrder, static_cast<unsigned int>(m_OrderVector.size()));`
`newOrder = newOrder == 0 ? 1 : newOrder;` with `size` the value of `m_OrderVector.size()`. -/
def clampOrder (newOrder size : Nat) : Nat :=
  if min newOrder (size % 2 ^ 32) = 0 then 1 else min newOrder (size % 2 ^ 32)

/-- The second half of `ChangeLayerOrder`, from `std::find` on: the handle is looked up
in `m_OrderVector`, erased, inserted at index `newOrder - 1`, and the stored orders are
written again. -/
def moveInOrder (r : Renderer) (handle : Int) (newOrder : Nat) : Except Fault Renderer :=
  -- auto it = std::find(m_OrderVector.begin(), m_OrderVector.end(), handle);
  -- if (it == m_OrderVector.end()) return;
  if r.m_OrderVector.length ≤ r.m_OrderVector.indexOf handle then .ok r
  -- m_OrderVector.erase(it); m_OrderVector.insert(m_OrderVector.begin() + (newOrder - 1), handle);
  else if (r.m_OrderVector.eraseIdx (r.m_OrderVector.indexOf handle)).length < newOrder - 1 then
    .error .undefined
  else
    match updateOrders 0
      (vecInsert (r.m_OrderVector.eraseIdx (r.m_OrderVector.indexOf handle)) (newOrder - 1)
        handle) r.m_Layers with
    | .ok ls =>
      .ok { r with
        m_Layers := ls
        m_OrderVector :=
          vecInsert (r.m_OrderVector.eraseIdx (r.m_OrderVector.indexOf handle)) (newOrder - 1)
            handle }
    | .error e => .error e

/-- The member function `Renderer::ChangeLayerOrder(WinHandle handle, unsigned int newOrder)`. -/
def ChangeLayerOrder (r : Renderer) (handle : Int) (newOrder : Nat) :
    Except Fault Renderer :=
  if r.m_Layers.length = 1 then .ok r
  else
    match layerAt r.m_Layers handle with
    | .error e => .error e
    | .ok l =>
      -- if (newOrder == m_Layers[handle].order) return;
      if clampOrder newOrder r.m_OrderVector.length = toUnsigned l.order then .ok r
      else moveInOrder r handle (clampOrder newOrder r.m_OrderVector.length)

/-- The member function `Renderer::CreateLayer`; `win` is the pointer that `newwin`
returned. The result carries the returned handle and the new state. -/
def CreateLayer (r : Renderer) (win : WINDOW) (height width starty startx : Int) :
    Except Fault (Int × Renderer) :=
  if win = 0 then .error .bad_alloc
  else
    let layer : LayerProp :=
      { layer := win, order := (r.m_Layers.length : Int) + 1, height := height,
        width := width, starty := starty, startx := startx }
    let ls := r.m_Layers ++ [layer]
    let ov := r.m_OrderVector ++ [(ls.length : Int) - 1]
    .ok ((ls.length : Int) - 1, { r with m_Layers := ls, m_OrderVector := ov })

/-- The member function `Renderer::CreateSubLayer`; `win` is the pointer that `derwin`
returned. The result carries the returned handle and the new state. -/
def CreateSubLayer (r : Renderer) (win : WINDOW) (parent : Int)
    (height width starty startx : Int) : Except Fault (Int × Renderer) :=
  if parent < 0 ∨ (r.m_Layers.length : Int) ≤ parent then .ok (-1, r)
  else
    match layerAt r.m_Layers parent with
    | .error e => .error e
    | .ok p =>
      if p.child ≠ -1 ∨ p.parent ≠ -1 then .ok (-1, r)
      else if win = 0 then .error .bad_alloc
      else
        let layer : LayerProp :=
          { layer := win, order := (r.m_Layers.length : Int) + 1, height := height,
            width := width, starty := starty, startx := startx, parent := parent }
        match setChild r.m_Layers parent (r.m_Layers.length : Int) with
        | .error e => .error e
        | .ok ls0 =>
          let ls := ls0 ++ [layer]
          let ov := r.m_OrderVector ++ [(ls.length : Int) - 1]
          .ok ((ls.length : Int) - 1, { r with m_Layers := ls, m_OrderVector := ov })

/-- The member function `Renderer::DestroyLayer`, with the depth of the recursion on the
child handle bounded by `fuel`. -/
def DestroyLayerFuel : Nat → Renderer → Int → Except Fault Renderer
  | 0, _, _ => .error .diverges
  | fuel + 1, r, handle =>
    if r.m_Layers.length = 1 then .ok r
    else
      match layerAt r.m_Layers handle with
      | .error e => .error e
      | .ok l =>
        -- if (m_Layers[handle].child != -1) DestroyLayer(m_Layers[handle].child);
        match (if l.child ≠ -1 then DestroyLayerFuel fuel r l.child else .ok r) with
        | .error e => .error e
        | .ok r1 =>
          match layerAt r1.m_Layers handle with
          | .error e => .error e
          | .ok l1 =>
            -- if (m_Layers[handle].parent != -1) m_Layers[m_Layers[handle].parent].child = -1;
            match (if l1.parent ≠ -1 then setChild r1.m_Layers l1.parent (-1)
                   else .ok r1.m_Layers) with
            | .error e => .error e
            | .ok ls2 =>
              -- m_Layers.erase(m_Layers.begin() + handle);
              let ls3 := ls2.eraseIdx handle.toNat
              -- m_OrderVector.erase(std::find(..., handle));
              let it := r1.m_OrderVector.indexOf handle
              if r1.m_OrderVector.length ≤ it then .error .undefined
              else .ok { r1 with m_Layers := ls3, m_OrderVector := r1.m_OrderVector.eraseIdx it }

/-- The member function `Renderer::DestroyLayer`. Every nested call is made on the state
the outer call was entered with, so a chain of child handles that has not ended after
`m_Layers.size() + 1` calls has visited an index twice and never ends. -/
def DestroyLayer (r : Renderer) (handle : Int) : Except Fault Renderer :=
  DestroyLayerFuel (r.m_Layers.length + 1) r handle

/-- The member function `Renderer::GetLayerOrder`. -/
def GetLayerOrder (r : Renderer) (handle : Int) : Except Fault Int :=
  match layerAt r.m_Layers handle with
  | .ok l => .ok l.order
  | .error e => .error e

/-- The handle is a valid index into `m_Layers`. -/
def ValidHandle (r : Renderer) (handle : Int) : Prop :=
  0 ≤ handle ∧ handle < (r.m_Layers.length : Int)

instance (r : Renderer) (handle : Int) : Decidable (ValidHandle r handle) := by
  unfold ValidHandle; infer_instance

/-- The states a `Renderer` object can be in: the freshly constructed one and every state
a returning call of one of the four mutating member functions leads to. A `DestroyLayer`
call counts whatever the depth its recursion reached. -/
inductive Reachable : Renderer → Prop where
  | fresh : Reachable {}
  | createLayer {r r2 : Renderer} {win : WINDOW} {height width starty startx : Int}
      {id : Int} :
      Reachable r → CreateLayer r win height width starty startx = .ok (id, r2) →
      Reachable r2
  | createSubLayer {r r2 : Renderer} {win : WINDOW} {parent : Int}
      {height width starty startx : Int} {id : Int} :
      Reachable r → CreateSubLayer r win parent height width starty startx = .ok (id, r2) →
      Reachable r2
  | destroyLayer {r r2 : Renderer} {handle : Int} {fuel : Nat} :
      Reachable r → DestroyLayerFuel fuel r handle = .ok r2 → Reachable r2
  | changeLayerOrder {r r2 : Renderer} {handle : Int} {newOrder : Nat} :
      Reachable r → ChangeLayerOrder r handle newOrder = .ok r2 → Reachable r2

/-! ## CLI.h: the interactive process runner -/

/-- The flag words of `struct termios`; each is a `tcflag_t`, an `unsigned int`. -/
structure termios where
  c_iflag : Nat
  c_oflag : Nat
  c_cflag : Nat
  c_lflag : Nat
deriving DecidableEq, Repr

/-! The flag constants of `<termios.h>`, with their Linux values. -/

def ISIG : Nat := 0o1
def ICANON : Nat := 0o2
def ECHO : Nat := 0o10
def IEXTEN : Nat := 0o100000
def BRKINT : Nat := 0o2
def INPCK : Nat := 0o20
def ISTRIP : Nat := 0o40
def ICRNL : Nat := 0o400
def IXON : Nat := 0o2000
def CSIZE : Nat := 0o60
def CS8 : Nat := 0o60
def PARENB : Nat := 0o400
def OPOST : Nat := 0o1

/-- The compound assignment `x &= ~(mask)` on a `tcflag_t`. -/
def clearFlags (x mask : Nat) : Nat := x &&& ((2 ^ 32 - 1) ^^^ mask)

/-- The raw settings `_SetRawMode` derives from the settings it read. -/
def rawSettings (original : termios) : termios :=
  { c_lflag := clearFlags original.c_lflag (ECHO ||| ICANON ||| ISIG ||| IEXTEN)
    c_iflag := clearFlags original.c_iflag (BRKINT ||| ICRNL ||| INPCK ||| ISTRIP ||| IXON)
    c_cflag := clearFlags original.c_cflag (CSIZE ||| PARENB) ||| CS8
    c_oflag := clearFlags original.c_oflag OPOST }

/-- The function `CLI::_SetRawMode(fd, original)` on the mode `tty` of the terminal behind
`fd`: the first component is what `tcgetattr` stores in `*original`, the second the mode
`tcsetattr` leaves the terminal in. -/
def _SetRawMode (tty : termios) : termios × termios := (tty, rawSettings tty)

/-- A byte moved through a file descriptor. -/
abbrev Byte := Nat

/-- What a call `read(fd, buffer, sizeof(buffer) - 1)` returns. -/
inductive ReadResult where
  /-- The call returned `-1`. -/
  | failed
  /-- The call returned the number of bytes listed, which it stored in `buffer`. -/
  | bytes (chunk : List Byte)
deriving DecidableEq, Repr

/-- What the caller observes in one pass of the wait loop of `RunInteractiveCommand`. -/
structure SelectRound where
  /-- The value `select` returned. -/
  activity : Int
  /-- Whether `errno == EINTR` after `select`. -/
  errno_EINTR : Bool
  /-- The value of `FD_ISSET(master_fd, &read_fds)`. -/
  master_set : Bool
  /-- What `read(master_fd, ...)` returns when it is called. -/
  master_read : ReadResult
  /-- The value of `FD_ISSET(STDIN_FILENO, &read_fds)`. -/
  stdin_set : Bool
  /-- What `read(STDIN_FILENO, ...)` returns when it is called. -/
  stdin_read : ReadResult
deriving DecidableEq, Repr

/-- What the caller process of `RunInteractiveCommand` acts on: the mode of its terminal,
the bytes written to `std::cout` and the bytes written to the pseudo-terminal master. -/
structure Session where
  tty : termios
  display : List Byte := []
  toMaster : List Byte := []
deriving DecidableEq, Repr

/-- What `forkpty` returns in the calling process: a negative value, or the pid of the
child with the descriptor of the master side. The branch `pid == 0` runs in the spawned
process, whose terminal is the slave side of the pseudo-terminal. -/
inductive ForkPty where
  | failed
  | parent (pid : Nat) (master_fd : Int)
deriving DecidableEq, Repr

/-- How a call of `RunInteractiveCommand` stands after the observed passes of its loop. -/
inductive CallEnd where
  /-- The call returned this value. -/
  | returned (exitCode : Nat)
  /-- The call ended with this exception. -/
  | threw (e : Fault)
  /-- The call is still inside its `while (true)` loop. -/
  | waiting
deriving DecidableEq, Repr

/-- The statement `std::cout << buffer` for a `char` array terminated by `'\0'`. -/
def printCString (buffer : List Byte) : List Byte := buffer.takeWhile (fun b => b != 0)

/-- One pass of the `while (true)` loop of `RunInteractiveCommand`; the flag tells whether
the pass left the loop through `break`. -/
def loopPass (rd : SelectRound) (s : Session) : Bool × Session :=
  -- if (activity < 0 && errno != EINTR) break;
  if rd.activity < 0 ∧ rd.errno_EINTR = false then (true, s)
  else
    let afterMaster : Option Session :=
      if rd.master_set then
        match rd.master_read with
        | .bytes (b :: bs) => some { s with display := s.display ++ printCString (b :: bs) }
        | _ => none
      else some s
    match afterMaster with
    | none => (true, s)
    | some s1 =>
      if rd.stdin_set then
        match rd.stdin_read with
        | .bytes (b :: bs) => (false, { s1 with toMaster := s1.toMaster ++ (b :: bs) })
        | _ => (false, s1)
      else (false, s1)

/-- The `while (true)` loop of `RunInteractiveCommand` over the passes observed; the flag
tells whether the loop was left. -/
def waitLoop : List SelectRound → Session → Bool × Session
  | [], s => (false, s)
  | rd :: rest, s =>
    match loopPass rd s with
    | (true, s1) => (true, s1)
    | (false, s1) => waitLoop rest s1

/-- The value of `WEXITSTATUS(status)`. -/
def WEXITSTATUS (status : Nat) : Nat := (status / 256) % 256

/-- The function `CLI::RunInteractiveCommand(cmd, arg)` in the calling process, started in
session state `s`. The environment supplies what `forkpty` returns, the passes of the wait
loop and the status `waitpid` stores. -/
def RunInteractiveCommand (_cmd _arg : List Char) (fork : ForkPty)
    (rounds : List SelectRound) (status : Nat) (s : Session) : CallEnd × Session :=
  -- struct termios original; _SetRawMode(STDIN_FILENO, &original);
  let original := (_SetRawMode s.tty).1
  let s1 : Session := { s with tty := (_SetRawMode s.tty).2 }
  match fork with
  | .failed => (.threw .system_error, s1)
  | .parent _ _ =>
    match waitLoop rounds s1 with
    | (false, s2) => (.waiting, s2)
    | (true, s2) =>
      -- tcsetattr(STDIN_FILENO, TCSANOW, &original); return WEXITSTATUS(status);
      (.returned (WEXITSTATUS status), { s2 with tty := original })

/-! ## Menu.h: the selectable list -/

/-- An ncurses menu `ITEM`: its name and its value (the mark). -/
structure ITEM where
  name : List Char
  value : Bool := false
deriving DecidableEq, Repr

/-- An ncurses `MENU`: its items in display order and the index of the current item. -/
structure MENU where
  items : List ITEM
  current : Nat := 0
deriving DecidableEq, Repr

/-- The requests `Menu::OnEvent` hands to `menu_driver`. -/
inductive MenuRequest where
  | REQ_UP_ITEM
  | REQ_DOWN_ITEM
  | REQ_SCR_UPAGE
  | REQ_SCR_DPAGE
  | REQ_TOGGLE_ITEM
deriving DecidableEq, Repr

/-- The struct `Menu::MenuOpts`. -/
structure MenuOpts where
  m_MenuMark : List Char := [' ', '>', ' ']
  m_Togglable : Bool := false
deriving DecidableEq, Repr

/-- The data members of `class Menu` that carry its state. `m_Menu` is `none` for a null
pointer; `driven` lists the requests handed to `menu_driver`, oldest first; `m_MenuItems`
holds the items `Init` created. -/
structure Menu where
  m_Menu : Option MENU := none
  m_selected : Bool := false
  m_MenuOpts : MenuOpts := {}
  driven : List MenuRequest := []
  m_MenuItems : List ITEM := []
deriving DecidableEq, Repr

/-- Modelled from the spec: the class `KeyEvent` of `KeyEvent.h`, an immutable
fixed-capacity buffer of 10 bytes holding one keypress or escape sequence; `GetKey`
gives the buffer. -/
structure KeyEvent where
  GetKey : Fin 10 → Char

/-- The member function `Menu::IsSelected`: the returned value and the new state. -/
def IsSelected (m : Menu) : Bool × Menu :=
  if m.m_selected then (true, { m with m_selected := false })
  else (false, m)

/-- The call `menu_driver(m_Menu.get(), request)`. -/
def menu_driver (m : Menu) (request : MenuRequest) : Menu :=
  { m with driven := m.driven ++ [request] }

/-- The member function `Menu::OnEvent`. -/
def OnEvent (m : Menu) (event : KeyEvent) : Menu :=
  if m.m_selected then m
  else
    let key := event.GetKey
    if key 0 = '\x1b' ∧ key 1 = '[' ∧ key 2 = 'A' then menu_driver m .REQ_UP_ITEM
    else if key 0 = '\x1b' ∧ key 1 = '[' ∧ key 2 = 'B' then menu_driver m .REQ_DOWN_ITEM
    else if key 0 = '\x1b' ∧ key 1 = '[' ∧ key 2 = '5' then menu_driver m .REQ_SCR_UPAGE
    else if key 0 = '\x1b' ∧ key 1 = '[' ∧ key 2 = '6' then menu_driver m .REQ_SCR_DPAGE
    else if m.m_MenuOpts.m_Togglable = true ∧ key 0 = ' ' then menu_driver m .REQ_TOGGLE_ITEM
    else if key 0 = '\n' ∨ key 0 = '\r' then { m with m_selected := true }
    else m

/-- The loop of `Menu::GetSelected` over the items still to visit, with `selected` the
content of the output string stream so far. -/
def appendMarked : List ITEM → List Char → List Char
  | [], selected => selected
  | item :: rest, selected =>
    if item.value then appendMarked rest (selected ++ item.name ++ [' '])
    else appendMarked rest selected

/-- The member function `Menu::GetSelected`. With no current item `item_name` returns a
null pointer, from which no `std::string` can be built. -/
def GetSelected (m : Menu) : Except Fault (List Char) :=
  match m.m_Menu with
  | none => .ok []
  | some menu =>
    if m.m_MenuOpts.m_Togglable = false then
      match menu.items[menu.current]? with
      | some cur => .ok cur.name
      | none => .error .undefined
    else .ok (appendMarked menu.items [])

/-- The names joined by single spaces. -/
def spaceJoined (names : List (List Char)) : List Char := [' '].intercalate names

/-- The names of the items whose value is set, in display order. -/
def markedNames (items : List ITEM) : List (List Char) :=
  (items.filter (fun item => item.value)).map (fun item => item.name)

/-! ## Concrete states used as inputs -/

/-- The state after one `CreateLayer` call on a fresh `Renderer`. -/
def oneLayer : Renderer :=
  { m_Layers :=
      [ { layer := 1, order := 1, height := 24, width := 80, starty := 0, startx := 0 } ]
    m_OrderVector := [0] }

/-- The state after two `CreateLayer` calls on a fresh `Renderer`. -/
def twoLayers : Renderer :=
  { m_Layers :=
      [ { layer := 1, order := 1, height := 24, width := 80, starty := 0, startx := 0 },
        { layer := 2, order := 2, height := 24, width := 80, starty := 0, startx := 0 } ]
    m_OrderVector := [0, 1] }

/-- The state after three `CreateLayer` calls on a fresh `Renderer`. -/
def threeLayers : Renderer :=
  { m_Layers :=
      [ { layer := 1, order := 1, height := 24, width := 80, starty := 0, startx := 0 },
        { layer := 2, order := 2, height := 24, width := 80, starty := 0, startx := 0 },
        { layer := 3, order := 3, height := 24, width := 80, starty := 0, startx := 0 } ]
    m_OrderVector := [0, 1, 2] }

/-- The state `Installer::Init` builds: one top-level layer and its sub-layer. -/
def mainAndSub : Renderer :=
  { m_Layers :=
      [ { layer := 1, order := 1, height := 24, width := 80, starty := 0, startx := 0,
          child := 1 },
        { layer := 2, order := 2, height := 22, width := 22, starty := 1, startx := 1,
          parent := 0 } ]
    m_OrderVector := [0, 1] }

/-- A terminal in its usual cooked mode. -/
def cookedMode : termios :=
  { c_iflag := ICRNL ||| IXON
    c_oflag := OPOST ||| 0o4
    c_cflag := CS8 ||| 0o200 ||| 0o17
    c_lflag := ISIG ||| ICANON ||| ECHO ||| IEXTEN ||| 0o5060 }

/-- A menu in toggle mode with the items `a` and `b` marked and `c` unmarked. -/
def menuAB : Menu :=
  { m_Menu := some { items := [⟨['a'], true⟩, ⟨['b'], true⟩, ⟨['c'], false⟩] }
    m_MenuOpts := { m_Togglable := true } }

/-- The key event of the Enter key. -/
def enterKey : KeyEvent := ⟨fun i => if i = 0 then '\n' else '\x00'⟩

/-! ## Properties of states -/

/-- No layer of the list has both a parent and a child. -/
def DepthOne (ls : List LayerProp) : Prop :=
  ∀ l ∈ ls, l.parent ≠ -1 → l.child = -1

/-- Every layer's stored order equals its position, counted from 1, in `m_OrderVector`:
each index `k` into `m_Layers` occurs at some index `i` of `m_OrderVector`, and the stored
order of layer `k` is `i + 1`. -/
def OrdersMatch (r : Renderer) : Prop :=
  ∀ k < r.m_Layers.length, ∃ i < r.m_OrderVector.length,
    r.m_OrderVector[i]? = some (k : Int) ∧
    (r.m_Layers[k]?).map (fun l => l.order) = some ((i : Int) + 1)

instance (r : Renderer) : Decidable (OrdersMatch r) := by
  unfold OrdersMatch; infer_instance

/-- The vector `m_OrderVector` is a permutation of the handles `0 .. N-1`, with `N` the
number of layers. -/
def OrderIsPermutation (r : Renderer) : Prop :=
  r.m_OrderVector.Perm ((List.range r.m_Layers.length).map (fun k : Nat => (k : Int)))

instance (r : Renderer) : Decidable (OrderIsPermutation r) := by
  unfold OrderIsPermutation; infer_instance

/-- The value `x` clamped into the interval from `lo` to `hi`. -/
def clamp (x lo hi : Nat) : Nat := max lo (min x hi)

/-- The key event of the up arrow: `ESC [ A`. -/
def upKey : KeyEvent :=
  ⟨fun i => if i = 0 then '\x1b' else if i = 1 then '[' else if i = 2 then 'A' else '\x00'⟩

/-- The key event of the space bar. -/
def spaceKey : KeyEvent := ⟨fun i => if i = 0 then ' ' else '\x00'⟩

/-- The menu `menuAB` with the latch set. -/
def menuABSelected : Menu := { menuAB with m_selected := true }

/-- The key buffer starts with the escape sequence `ESC [ c`. -/
def IsEscape (event : KeyEvent) (c : Char) : Prop :=
  event.GetKey 0 = '\x1b' ∧ event.GetKey 1 = '[' ∧ event.GetKey 2 = c

instance (event : KeyEvent) (c : Char) : Decidable (IsEscape event c) := by
  unfold IsEscape; infer_instance

/-- The first byte of the key buffer is `'\n'` or `'\r'`. -/
def IsEnter (event : KeyEvent) : Prop :=
  event.GetKey 0 = '\n' ∨ event.GetKey 0 = '\r'

instance (event : KeyEvent) : Decidable (IsEnter event) := by
  unfold IsEnter; infer_instance

/-- The loop of `Renderer::OnUpdate` over the entries of `m_OrderVector` still to visit:
the windows handed to `wrefresh`, in order. -/
def refreshAll : List Int → List LayerProp → Except Fault (List WINDOW)
  | [], _ => .ok []
  | index :: rest, ls =>
    match layerAt ls index with
    | .error e => .error e
    | .ok l =>
      match refreshAll rest ls with
      | .ok refreshed => .ok (l.layer :: refreshed)
      | .error e => .error e

/-- The member function `Renderer::OnUpdate`: the windows handed to `wrefresh`, in order. -/
def OnUpdate (r : Renderer) : Except Fault (List WINDOW) :=
  refreshAll r.m_OrderVector r.m_Layers

/-- The state after three `CreateLayer` calls and `DestroyLayer(0)`. -/
def afterDestroyFirst : Renderer :=
  { m_Layers :=
      [ { layer := 2, order := 2, height := 24, width := 80, starty := 0, startx := 0 },
        { layer := 3, order := 3, height := 24, width := 80, starty := 0, startx := 0 } ]
    m_OrderVector := [1, 2] }

/-! ## CLI.h: argument splitting and the captured run -/

/-- The function `std::isspace` in the "C" locale, which `operator>>` uses to delimit a
word: space, `\t`, `\n`, `\v`, `\f` and `\r`. -/
def isspace (c : Char) : Bool :=
  c == ' ' || c == '\t' || c == '\n' || c == '\x0b' || c == '\x0c' || c == '\r'

/-- The extraction `stream >> word` into a `std::string`: leading whitespace is skipped,
then characters are taken up to the next whitespace or the end. The result is the word
with what is left of the stream, or `none` when no character could be extracted. -/
def extractWord (stream : List Char) : Option (List Char × List Char) :=
  match stream.dropWhile isspace with
  | [] => none
  | c :: cs =>
    some ((c :: cs).takeWhile (fun x => !isspace x), (c :: cs).dropWhile (fun x => !isspace x))

/-- The loop `while (iss >> arg) argList.push_back(arg);`, run for at most `fuel` passes. -/
def extractAll : Nat → List Char → List (List Char)
  | 0, _ => []
  | fuel + 1, stream =>
    match extractWord stream with
    | none => []
    | some (arg, rest) => arg :: extractAll fuel rest

/-- The function `CLI::_ParseArguments`. Every pass of its loop consumes at least one
character, so `args.size() + 1` passes are never used up. -/
def _ParseArguments (args : List Char) : List (List Char) :=
  extractAll (args.length + 1) args

/-- The maximal runs of non-whitespace characters of a string, in order: the pieces
between any two whitespace characters, without the empty pieces. -/
def maximalRuns (s : List Char) : List (List Char) :=
  (s.splitOnP isspace).filter (fun w => !w.isEmpty)

/-- What the child process of `RunCommand` hands to the `exec` family: the function called,
the program and the argument vector. -/
inductive ExecCall where
  | execvp (file : List Char) (argv : List (List Char))
  | execl (path : List Char) (argv : List (List Char))
deriving DecidableEq, Repr

/-- What `fork` returns: `-1`, `0` in the child, the pid of the child in the parent. -/
inductive Fork where
  | failed
  | child
  | parent (pid : Nat)
deriving DecidableEq, Repr

/-- How a call of `RunCommand` ends in the process it runs in. -/
inductive RunCommandEnd where
  /-- The call ended with this exception. -/
  | threw (e : Fault)
  /-- The child replaced its image through this call (or left through `_exit`). -/
  | exec (call : ExecCall)
  /-- The parent returned this output. -/
  | returned (output : List Char)
deriving DecidableEq, Repr

/-- The function `CLI::RunCommand(cmd, args)`, with `args` `none` for a null pointer. The
environment supplies whether `pipe` succeeded, what `fork` returned and the bytes the
parent reads from the pipe until `read` returns no more. -/
def RunCommand (cmd : List Char) (args : Option (List Char)) (pipeOk : Bool) (fork : Fork)
    (piped : List Char) : RunCommandEnd :=
  if pipeOk = false then .threw .system_error
  else
    match fork with
    | .failed => .threw .system_error
    | .child =>
      -- if (strcmp(cmd, "/bin/bash") != 0)
      if cmd ≠ "/bin/bash".toList then
        .exec (.execvp cmd (cmd :: _ParseArguments (args.getD [])))
      else
        -- execl(cmd, cmd, args, nullptr): the list ends at the first null pointer
        .exec (.execl cmd (cmd :: args.toList))
    | .parent _ => .returned piped

/-- The argument vector a call of `RunCommand` handed to `exec`, if it got that far. -/
def execArgv : RunCommandEnd → Option (List (List Char))
  | .exec (.execvp _ argv) => some argv
  | .exec (.execl _ argv) => some argv
  | _ => none

/-- A pass of the wait loop in which only the master is readable and `read` returns
`chunk`. -/
def masterPass (chunk : List Byte) : SelectRound :=
  { activity := 1, errno_EINTR := false, master_set := true, master_read := .bytes chunk,
    stdin_set := false, stdin_read := .bytes [] }

/-- A pass of the wait loop in which only the standard input is readable and `read`
returns `chunk`. -/
def stdinPass (chunk : List Byte) : SelectRound :=
  { activity := 1, errno_EINTR := false, master_set := false, master_read := .bytes [],
    stdin_set := true, stdin_read := .bytes chunk }

/-! ## CLI.h: writing a file -/

/-- A file system: the content of the file at each path, `none` where there is no file. -/
def FileSystem : Type := List Char → Option (List Char)

/-- The file system with the file at `path` holding `content` and every other path as
before. -/
def FileSystem.store (fs : FileSystem) (path content : List Char) : FileSystem :=
  fun p => if p = path then some content else fs p

/-- What the environment does to the output file stream of one `WriteToFile` call. -/
structure StreamWeather where
  /-- Whether the stream is good after its construction (the file could be opened). -/
  openOk : Bool
  /-- The size from which on the stream writes an insertion through to the file at once;
  a shorter insertion stays in the buffer of the stream until the stream is destroyed
  (1024 in libstdc++). -/
  writeThrough : Nat
  /-- How many characters the file takes before a write to it fails. -/
  room : Nat
deriving DecidableEq, Repr

/-- The function `CLI::WriteToFile(filePath, content)` on the file system `fs`: the
outcome and the file system afterwards. Opening with `std::ios::trunc` empties the file.
An insertion that is written through sets the stream bad when the file takes fewer
characters than the content; an insertion that stays in the buffer leaves the stream
good, and the destructor of the stream, which runs after the test of the stream, writes
the buffer and drops a failure of that write. -/
def WriteToFile (fs : FileSystem) (weather : StreamWeather) (filePath content : List Char) :
    Except Fault Unit × FileSystem :=
  -- std::ofstream fileStream(filePath, std::ios::out | std::ios::trunc);
  -- if (!fileStream) throw std::runtime_error("Failed to open file: " + filePath);
  if weather.openOk = false then (.error .runtime_error, fs)
  else
    let truncated := fs.store filePath []
    let written := truncated.store filePath (content.take weather.room)
    -- fileStream << content;
    if weather.writeThrough ≤ content.length then
      -- if (!fileStream) throw std::runtime_error("Failed to write to file: " + filePath);
      if weather.room < content.length then (.error .runtime_error, written)
      else (.ok (), written)
    else
      -- the stream is good at the test; its destructor writes the buffer
      (.ok (), written)

/-- A file system with one file, `/etc/hostname`, holding `old`. -/
def oneFile : FileSystem :=
  FileSystem.store (fun _ => none) "/etc/hostname".toList "old".toList

/-- Fair weather: the file opens and takes every character. -/
def fair (content : List Char) : StreamWeather :=
  { openOk := true, writeThrough := 1024, room := content.length }

/-- The file opens but takes two characters only, as under a file size limit of 2. -/
def smallQuota : StreamWeather := { openOk := true, writeThrough := 1024, room := 2 }

/-- The file opens but takes no character, as on a full disk. -/
def fullDisk : StreamWeather := { openOk := true, writeThrough := 1024, room := 0 }

/-! ## Menu.h: building the items -/

/-- The call `std::getline(stream, line)`: the line up to the next `'\n'` with what is
left of the stream behind that `'\n'`, or `none` at the end of the stream. -/
def getline (stream : List Char) : Option (List Char × List Char) :=
  match stream with
  | [] => none
  | c :: cs =>
    some ((c :: cs).takeWhile (fun x => x != '\n'),
      ((c :: cs).dropWhile (fun x => x != '\n')).drop 1)

/-- The characters a C string built from `s` holds: those before the first zero byte.
This is what `std::strcpy(buffer, line.c_str())` leaves in the buffer and what ncurses
reads as the name of the item. -/
def cString (s : List Char) : List Char := s.takeWhile (fun c => c != '\x00')

/-- What the allocator and ncurses answer during one `Menu::Init` call. -/
structure MenuWeather where
  /-- Whether `std::make_unique<char[]>(size)` succeeds. -/
  make_unique_ok : Nat → Bool
  /-- Whether `new_item` returns a non-null pointer for a name. -/
  new_item_ok : List Char → Bool
  /-- Whether `calloc` returns a non-null pointer. -/
  calloc_ok : Bool
  /-- Whether `new_menu` returns a non-null pointer. -/
  new_menu_ok : Bool

/-- Whether the pass of the loop of `Menu::Init` for `line` gets its item: the buffer of
`line.size() + 1` characters is allocated and `new_item` takes the name copied into it. -/
def MenuWeather.accepts (weather : MenuWeather) (line : List Char) : Bool :=
  weather.make_unique_ok (line.length + 1) && weather.new_item_ok (cString line)

/-- The loop `while (std::getline(stream, line))` of `Menu::Init`, run for at most `fuel`
passes on what is left of the stream, with `held` the content of `m_MenuItems`. The
result is `m_MenuItems` when the loop ends and the exception it ended with, if any. The
two vectors and the string `line` are taken to grow without an allocation failure. -/
def buildItems (weather : MenuWeather) :
    Nat → List Char → List ITEM → List ITEM × Option Fault
  | 0, _, held => (held, some .diverges)
  | fuel + 1, stream, held =>
    match getline stream with
    | none => (held, none)
    | some (line, rest) =>
      -- m_MenuItemStrings.emplace_back(std::make_unique<char[]>(line.size() + 1));
      if weather.make_unique_ok (line.length + 1) = false then (held, some .bad_alloc)
      -- std::strcpy(m_MenuItemStrings.back().get(), line.c_str());
      -- ITEM* rawItem = new_item(m_MenuItemStrings.back().get(), nullptr);
      -- if (!rawItem) throw std::bad_alloc();
      else if weather.new_item_ok (cString line) = false then (held, some .bad_alloc)
      else buildItems weather fuel rest (held ++ [{ name := cString line }])

/-- The member function `Menu::Init(items)`: the returned value and the new state. Every
pass of its loop consumes at least one character, so `items.size() + 1` passes are never
used up. -/
def Init (weather : MenuWeather) (m : Menu) (items : List Char) : Bool × Menu :=
  match buildItems weather (items.length + 1) items m.m_MenuItems with
  | (held, some _) => (false, { m with m_MenuItems := held })
  | (held, none) =>
    -- rawItems = (ITEM**)calloc(...); if (!rawItems) throw std::bad_alloc();
    if weather.calloc_ok = false then (false, { m with m_MenuItems := held })
    -- MENU* rawMenu = new_menu(rawItems); if (!rawMenu) throw std::bad_alloc();
    else if weather.new_menu_ok = false then (false, { m with m_MenuItems := held })
    else (true, { m with m_MenuItems := held, m_Menu := some { items := held } })

/-- The names of the items of the menu, in display order; none for a null `m_Menu`. -/
def itemNames (m : Menu) : List (List Char) :=
  match m.m_Menu with
  | none => []
  | some menu => menu.items.map (fun item => item.name)

/-- The lines of a text as `std::getline` yields them one after the other, over at most
`fuel` calls. -/
def getlines : Nat → List Char → List (List Char)
  | 0, _ => []
  | fuel + 1, stream =>
    match getline stream with
    | none => []
    | some (line, rest) => line :: getlines fuel rest

/-- The non-empty lines of a text, in order: the pieces between any two `'\n'`, without
the empty pieces. -/
def nonEmptyLines (text : List Char) : List (List Char) :=
  (text.splitOnP (fun c => c == '\n')).filter (fun line => !line.isEmpty)

/-- The function `isprint` in the "C" locale: the characters from space to `~`. -/
def isprint (c : Char) : Bool := 32 ≤ c.toNat && c.toNat ≤ 126

/-- Weather in which every allocation succeeds and `new_item` answers as ncurses does: a
null pointer for an empty name and for a name holding a character that is not
printable, such as a tab or a carriage return, an item otherwise. -/
def ncursesFair : MenuWeather :=
  { make_unique_ok := fun _ => true
    new_item_ok := fun name => !name.isEmpty && name.all isprint
    calloc_ok := true
    new_menu_ok := true }

/-! ## Installer.h: the package selection -/

/-- Whether `item` occurs in `s` at the front. -/
def startsWith : List Char → List Char → Bool
  | _, [] => true
  | [], _ :: _ => false
  | c :: cs, i :: is => c == i && startsWith cs is

/-- The call `s.find(item)` of `std::string`, searched from position `pos` of the whole
string on, with `s` what is left from there: the first position at which `item` occurs,
or `none` for `npos`. -/
def findFrom : List Char → List Char → Nat → Option Nat
  | [], item, pos => if item.isEmpty then some pos else none
  | c :: cs, item, pos =>
    if startsWith (c :: cs) item then some pos else findFrom cs item (pos + 1)

/-- The loop `for (auto& item : itemsToRemove) args.erase(args.find(item), item.length() + 1);`
of `_InstallPackages`. With `item` not found, `erase` is called with `npos` and throws
`std::out_of_range`. -/
def eraseEach : List (List Char) → List Char → Except Fault (List Char)
  | [], args => .ok args
  | item :: rest, args =>
    match findFrom args item 0 with
    | none => .error .out_of_range
    | some pos => eraseEach rest (args.take pos ++ args.drop (pos + (item.length + 1)))

/-- The package names `_InstallPackages` writes to its string stream, in order. -/
def offeredPackages : List (List Char) :=
  [ "NetworkManager".toList, "less".toList, "curl".toList, "base-devel".toList,
    "usbutils".toList, "reflector".toList, "wget".toList, "htop".toList,
    "git".toList, "networkmanager".toList, "networkmanager-openvpn".toList,
    "network-manager-applet".toList, "openvpn".toList, "pacman-contrib".toList,
    "neofetch".toList, "xorg-xrandr".toList, "spotify-launcher".toList,
    "libreoffice".toList, "flatpak".toList, "xdg-desktop-portal".toList,
    "okular".toList, "ntfs-3g".toList, "python-pip".toList, "python-pipx".toList,
    "xdg-utils".toList, "ddcutil".toList, "yakuake".toList, "gnome-calculator".toList,
    "gnome-text-editor".toList, "nautilus-share".toList,
    "nautilus".toList, "gvfs-smb".toList ]

/-- The value of `oss.str()` in `_InstallPackages`: every package name followed by
`'\n'`. -/
def offeredText : List Char :=
  (offeredPackages.map (fun name => name ++ ['\n'])).flatten

/-- The lines of `_InstallPackages` from `std::string selected = menu.GetSelected();` to
`args = "-S " + args;`: the argument string built for `pacman`. -/
def pacmanArgs (selected : List Char) : Except Fault (List Char) :=
  -- while (iss >> item) itemsToRemove.push_back(item);
  let itemsToRemove := extractAll (selected.length + 1) selected
  match eraseEach itemsToRemove offeredText with
  | .error e => .error e
  | .ok args =>
    -- std::replace(args.begin(), args.end(), '\n', ' '); args = "-S " + args;
    .ok ("-S ".toList ++ args.map (fun c => if c = '\n' then ' ' else c))

/-- The menu of `_InstallPackages` when the operator confirms: one item per offered
package, in toggle mode, with the value of an item set where the operator marked it. -/
def packagesMenu (marked : List Char → Bool) : Menu :=
  { m_Menu := some
      { items := offeredPackages.map (fun name => { name := name, value := marked name }) }
    m_MenuOpts := { m_Togglable := true } }

/-- The argument string `_InstallPackages` builds for `pacman` when the operator marked
the packages `marked` holds of. -/
def installArgs (marked : List Char → Bool) : Except Fault (List Char) :=
  match GetSelected (packagesMenu marked) with
  | .error e => .error e
  | .ok selected => pacmanArgs selected

/-- The string `"-S "` followed by the unmarked package names, in their original order,
each followed by one space. -/
def unmarkedArgs (marked : List Char → Bool) : List Char :=
  "-S ".toList ++
    ((offeredPackages.filter (fun name => !marked name)).map (fun name => name ++ [' '])).flatten

/-- The operator marked the package `openvpn` and nothing else. -/
def onlyOpenvpn (name : List Char) : Bool := name == "openvpn".toList

/-- The operator marked the package `nautilus` and nothing else. -/
def onlyNautilus (name : List Char) : Bool := name == "nautilus".toList

/-- The operator marked the package `less` and nothing else. -/
def onlyLess (name : List Char) : Bool := name == "less".toList

/-! ## CLI.h: the device name of a menu line -/

/-- The function `CLI::ExtractDiskOrPartitionName`. On the empty line `line[0]` is the
terminating `'\0'`. With no character outside `"|\x60-"`, `find_first_not_of` gives `npos`
and `substr(npos, ...)` throws `std::out_of_range`. -/
def ExtractDiskOrPartitionName (line : List Char) : Except Fault (List Char) :=
  if line.head? = some '|' ∨ line.head? = some '\x60' then
    -- size_t start = line.find_first_not_of("|\x60-");
    match line.dropWhile (fun c => c == '|' || c == '\x60' || c == '-') with
    | [] => .error .out_of_range
    -- size_t end = line.find(' ', start); return line.substr(start, end - start);
    | c :: cs => .ok ((c :: cs).takeWhile (fun x => x != ' '))
  else
    -- std::istringstream iss(line); iss >> diskName;
    match extractWord line with
    | none => .ok []
    | some (diskName, _) => .ok diskName

/-! ## Installer.h: the steps and what they reach -/

/-- What a step of the installer does towards the operating system, and the dry-run lines
it prints instead. -/
inductive Effect where
  /-- A call `CLI::RunCommand(cmd, args)`, with `args` `none` for the default null
  pointer. -/
  | RunCommand (cmd : List Char) (args : Option (List Char))
  /-- A call `CLI::RunInteractiveCommand(cmd, args)`. -/
  | RunInteractiveCommand (cmd args : List Char)
  /-- A call `CLI::WriteToFile(filePath, content)`. -/
  | WriteToFile (filePath content : List Char)
  /-- A line printed to `std::cout` that starts with `Dry Run: `. -/
  | DryRun (line : List Char)
deriving DecidableEq, Repr

/-- Whether the effect is a call of `CLI::RunCommand`, `CLI::RunInteractiveCommand` or
`CLI::WriteToFile`. -/
def Effect.isCliCall : Effect → Bool
  | .DryRun _ => false
  | _ => true

/-- The data members of `class Installer` the steps read and write. -/
structure Installer where
  m_Keymap : List Char := []
  m_Timezone : List Char := []
  m_DebuggerPresent : Bool := false
  m_Debug : Bool := false
deriving DecidableEq, Repr

/-- What the system and the person at the terminal answer during a run. -/
structure Operator where
  /-- The output of `localectl list-keymaps`. -/
  keymaps : List Char
  /-- What `menu.GetSelected()` returns in `_KBLayout`. -/
  keymap : List Char
  /-- The output of `timedatectl list-timezones`. -/
  timezones : List Char
  /-- What `menu.GetSelected()` returns in `_SystemClock`. -/
  timezone : List Char
  /-- The output of `lsblk`. -/
  disks : List Char
  /-- What `menu.GetSelected()` returns in `_PartitionDisks`. -/
  disk : List Char
  /-- The packages marked in `_InstallPackages`. -/
  marked : List Char → Bool
  /-- The word read by `std::cin >> args` in `_Localization`. -/
  locale : List Char
  /-- The word read by `std::cin >> args` in `_NetworkConfiguration`. -/
  hostname : List Char
  /-- The word read by `std::cin >> username` in `_Accounts`. -/
  username : List Char
  /-- The word read by `std::cin >> dir` in `_BootLoader`. -/
  dir : List Char
  /-- The exception a call of the `CLI` namespace ends with, if any. -/
  cliThrows : Effect → Option Fault

/-- A run of installer code: the object, the effects so far, oldest first, and the
exception on its way up, if one was thrown. -/
structure Run where
  self : Installer
  trace : List Effect := []
  thrown : Option Fault := none

/-- A direct call into the `CLI` namespace. Nothing happens once an exception is on its
way up. -/
def callCli (op : Operator) (e : Effect) (r : Run) : Run :=
  match r.thrown with
  | some _ => r
  | none => { r with trace := r.trace ++ [e], thrown := op.cliThrows e }

/-- The statement `if (cond) throw e;`. -/
def throwIf (cond : Bool) (e : Fault) (r : Run) : Run :=
  match r.thrown with
  | some _ => r
  | none => if cond then { r with thrown := some e } else r

/-- The member function `Installer::_RunCommand`. -/
def _RunCommand (op : Operator) (command args : List Char) (r : Run) : Run :=
  match r.thrown with
  | some _ => r
  | none =>
    if r.self.m_Debug then
      -- std::cout << "Dry Run: " << command << " " << args << std::endl;
      { r with trace := r.trace ++ [.DryRun ("Dry Run: ".toList ++ command ++ " ".toList ++ args)] }
    else callCli op (.RunCommand command (some args)) r

/-- The member function `Installer::_RunInteractiveCommand`. -/
def _RunInteractiveCommand (op : Operator) (command args : List Char) (r : Run) : Run :=
  match r.thrown with
  | some _ => r
  | none =>
    if r.self.m_Debug then
      { r with trace := r.trace ++ [.DryRun ("Dry Run: ".toList ++ command ++ " ".toList ++ args)] }
    else callCli op (.RunInteractiveCommand command args) r

/-- The member function `Installer::_WriteToFile`. -/
def _WriteToFile (op : Operator) (file content : List Char) (r : Run) : Run :=
  match r.thrown with
  | some _ => r
  | none =>
    if r.self.m_Debug then
      -- std::cout << "Dry Run: " << file << ":\n" << content << std::endl;
      { r with trace := r.trace ++ [.DryRun ("Dry Run: ".toList ++ file ++ ":\n".toList ++ content)] }
    else callCli op (.WriteToFile file content) r

/-- The assignment `m_Keymap = args;`. -/
def setKeymap (keymap : List Char) (r : Run) : Run :=
  match r.thrown with
  | some _ => r
  | none => { r with self := { r.self with m_Keymap := keymap } }

/-- The assignment `m_Timezone = menu.GetSelected();`. -/
def setTimezone (timezone : List Char) (r : Run) : Run :=
  match r.thrown with
  | some _ => r
  | none => { r with self := { r.self with m_Timezone := timezone } }

/-- The member function `Installer::_KBLayout`. -/
def _KBLayout (op : Operator) (r : Run) : Run :=
  -- output = CLI::RunCommand("localectl", "list-keymaps");
  let r1 := callCli op (.RunCommand "localectl".toList (some "list-keymaps".toList)) r
  let r2 := throwIf op.keymaps.isEmpty .runtime_error r1
  let r3 := setKeymap op.keymap r2
  _RunCommand op "loadkeys".toList op.keymap r3

/-- The member function `Installer::_SystemClock`. -/
def _SystemClock (op : Operator) (r : Run) : Run :=
  -- output = CLI::RunCommand("timedatectl", "list-timezones");
  let r1 := callCli op (.RunCommand "timedatectl".toList (some "list-timezones".toList)) r
  let r2 := throwIf op.timezones.isEmpty .runtime_error r1
  let r3 := setTimezone op.timezone r2
  _RunCommand op "timedatectl".toList ("set-timezone ".toList ++ op.timezone) r3

/-- The member function `Installer::_PartitionDisks`. -/
def _PartitionDisks (op : Operator) (r : Run) : Run :=
  -- output = CLI::RunCommand("lsblk");
  let r1 := callCli op (.RunCommand "lsblk".toList none) r
  let r2 := throwIf op.disks.isEmpty .runtime_error r1
  match r2.thrown with
  | some _ => r2
  | none =>
    -- args = "/dev/" + CLI::ExtractDiskOrPartitionName(menu.GetSelected());
    match ExtractDiskOrPartitionName op.disk with
    | .error e => { r2 with thrown := some e }
    | .ok name =>
      let r3 := _RunInteractiveCommand op "cfdisk".toList ("/dev/".toList ++ name) r2
      _RunInteractiveCommand op "bash".toList [] r3

/-- The member function `Installer::Step1`; its `catch` block throws the exception on. -/
def Step1 (op : Operator) (r : Run) : Run :=
  _PartitionDisks op (_SystemClock op (_KBLayout op r))

/-- The member function `Installer::_SelectMirrors`. -/
def _SelectMirrors (op : Operator) (r : Run) : Run :=
  _RunCommand op "reflector".toList
    "--verbose --latest 5 --sort rate --save /etc/pacman.d/mirrorlist".toList r

/-- The member function `Installer::_InstallPackages`. -/
def _InstallPackages (op : Operator) (r : Run) : Run :=
  let r1 := _RunCommand op "pacstrap".toList "/mnt base linux linux-firmware linux-lts".toList r
  let r2 := _RunCommand op "arch-chroot".toList "/mnt".toList r1
  match r2.thrown with
  | some _ => r2
  | none =>
    match installArgs op.marked with
    | .error e => { r2 with thrown := some e }
    | .ok args =>
      let r3 := _RunInteractiveCommand op "pacman".toList args r2
      _RunCommand op "exit".toList [] r3

/-- The member function `Installer::Step2`; its `catch` block throws the exception on. -/
def Step2 (op : Operator) (r : Run) : Run :=
  _InstallPackages op (_SelectMirrors op r)

/-- The member function `Installer::_Chroot`. -/
def _Chroot (op : Operator) (r : Run) : Run :=
  _RunCommand op "arch-chroot".toList "/mnt".toList r

/-- The member function `Installer::_TimeZone`. -/
def _TimeZone (op : Operator) (r : Run) : Run :=
  let r1 := _RunCommand op "ln".toList
    ("-sf /usr/share/zoneinfo/".toList ++ r.self.m_Timezone ++ " /etc/localtime".toList) r
  _RunCommand op "hwclock".toList "--systohc".toList r1

/-- The member function `Installer::_Localization`. -/
def _Localization (op : Operator) (r : Run) : Run :=
  let r1 := _RunInteractiveCommand op "nano".toList "/etc/locale.gen".toList r
  let r2 := _RunCommand op "locale-gen".toList [] r1
  let r3 := _WriteToFile op "/etc/locale.conf".toList ("LANG=".toList ++ op.locale) r2
  _WriteToFile op "/etc/vconsole.conf".toList ("KEYMAP=".toList ++ r.self.m_Keymap) r3

/-- The member function `Installer::_NetworkConfiguration`. -/
def _NetworkConfiguration (op : Operator) (r : Run) : Run :=
  _WriteToFile op "/etc/hostname".toList op.hostname r

/-- The member function `Installer::_Initramfs`. -/
def _Initramfs (op : Operator) (r : Run) : Run :=
  _RunCommand op "mkinitcpio".toList "-P".toList r

/-- The member function `Installer::_Accounts`. The argument string of `useradd` is built
from the local `args`, which is empty at that point. -/
def _Accounts (op : Operator) (r : Run) : Run :=
  let r1 := _RunInteractiveCommand op "passwd".toList [] r
  let r2 := _RunCommand op "useradd".toList "-m -G wheel ".toList r1
  _RunInteractiveCommand op "passwd".toList op.username r2

/-- One boot loader file of `_BootLoader`: written, then opened in `nano`. -/
def writeAndEdit (op : Operator) (command content : List Char) (r : Run) : Run :=
  _RunInteractiveCommand op "nano".toList command (_WriteToFile op command content r)

/-- The member function `Installer::_BootLoader`. -/
def _BootLoader (op : Operator) (r : Run) : Run :=
  let r1 := _RunCommand op "bootctl".toList "install".toList r
  let r2 := writeAndEdit op (op.dir ++ "/loader/loader.conf".toList)
    "default arch.conf\ntimeout 0\nconsole-mode max\neditor no\n".toList r1
  let r3 := writeAndEdit op (op.dir ++ "/loader/entries/arch.conf".toList)
    ("title Arch Linux\nlinux /vmlinuz-linux\ninitrd /initramfs-linux.img\n".toList ++
      "options root=\"LABEL=Arch OS\" rw quiet\n".toList) r2
  let r4 := writeAndEdit op (op.dir ++ "/loader/entries/arch-lts.conf".toList)
    ("title Arch Linux LTS\nlinux /vmlinuz-linux-lts\ninitrd /initramfs-linux-lts.img\n".toList ++
      "options root=\"LABEL=Arch OS\" rw quiet\n".toList) r3
  let r5 := writeAndEdit op (op.dir ++ "/loader/entries/arch-fallback.conf".toList)
    ("title Arch Linux Fallback\nlinux /vmlinuz-linux\n".toList ++
      "initrd /initramfs-linux-fallback.img\n".toList ++
      "options root=\"LABEL=Arch OS\" rw quiet\n".toList) r4
  writeAndEdit op (op.dir ++ "/loader/entries/arch-lts-fallback.conf".toList)
    ("title Arch Linux LTS Fallback\nlinux /vmlinuz-linux-lts\n".toList ++
      "initrd /initramfs-linux-lts-fallback.img\n".toList ++
      "options root=\"LABEL=Arch OS\" rw quiet\n".toList) r5

/-- The member function `Installer::Step3`; its `catch` block throws the exception on. -/
def Step3 (op : Operator) (r : Run) : Run :=
  _BootLoader op (_Accounts op (_Initramfs op (_NetworkConfiguration op
    (_Localization op (_TimeZone op (_Chroot op r))))))

/-- The installer as `main` leaves it for the steps when started with `-d`. -/
def debugInstaller : Installer := { m_Debug := true }

/-- An operator who picks the keymap `us`, the timezone `Europe/Berlin` and the disk
`sda`, marks no package, and for whom no call fails. -/
def sampleOperator : Operator :=
  { keymaps := "de\nus\n".toList
    keymap := "us".toList
    timezones := "Europe/Berlin\nEurope/Paris\n".toList
    timezone := "Europe/Berlin".toList
    disks := "NAME MAJ:MIN\nsda 8:0\n".toList
    disk := "sda 8:0".toList
    marked := fun _ => false
    locale := "en_US.UTF-8".toList
    hostname := "arch".toList
    username := "user".toList
    dir := "/boot".toList
    cliThrows := fun _ => none }

/-- Every effect of the run so far is a dry-run line, and the run is in debug mode. -/
def DryOnly (r : Run) : Prop :=
  r.self.m_Debug = true ∧ ∀ e ∈ r.trace, e.isCliCall = false

/-- The characters of the set `"|\x60-"` that `find_first_not_of` skips in
`ExtractDiskOrPartitionName`. -/
def treeChar (c : Char) : Bool := c == '|' || c == '\x60' || c == '-'

/-- The line starts with `'|'` or with a backquote. -/
def StartsTree (line : List Char) : Prop :=
  line.head? = some '|' ∨ line.head? = some '\x60'

instance (line : List Char) : Decidable (StartsTree line) := by
  unfold StartsTree; infer_instance

/-- An operator who picks a menu line holding tree characters only. -/
def treeOnlyOperator : Operator := { sampleOperator with disk := "|-".toList }

/-! # Properties -/

/-! ## The interactive process runner -/

theorem loopPass_tty (rd : SelectRound) (s : Session) : (loopPass rd s).2.tty = s.tty := by
  unfold loopPass
  split
  · rfl
  · rcases rd with ⟨act, e, ms, mr, ss, sr⟩
    cases ms <;> cases ss <;> rcases mr with _ | ⟨_ | ⟨b, bs⟩⟩ <;>
      rcases sr with _ | ⟨_ | ⟨c, cs⟩⟩ <;> rfl

theorem waitLoop_tty (rounds : List SelectRound) (s : Session) :
    (waitLoop rounds s).2.tty = s.tty := by
  induction rounds generalizing s with
  | nil => rfl
  | cons rd rest ih =>
    unfold waitLoop
    have h := loopPass_tty rd s
    rcases hp : loopPass rd s with ⟨b, s1⟩
    rw [hp] at h
    cases b
    · simp only; rw [ih s1]; exact h
    · simpa using h

/-- Whenever the call returns in the calling process (the wait loop was left through
either `break`), the terminal is back in the mode `_SetRawMode` captured. -/
theorem RunInteractiveCommand_restores_on_return (cmd arg : List Char) (pid : Nat)
    (master_fd : Int) (rounds : List SelectRound) (status : Nat) (s : Session) (code : Nat)
    (h : (RunInteractiveCommand cmd arg (.parent pid master_fd) rounds status s).1
      = .returned code) :
    (RunInteractiveCommand cmd arg (.parent pid master_fd) rounds status s).2.tty = s.tty := by
  unfold RunInteractiveCommand at h ⊢
  simp only at h ⊢
  rcases hw : waitLoop rounds { s with tty := (_SetRawMode s.tty).2 } with ⟨b, s2⟩
  rw [hw] at h
  cases b
  · simp at h
  · rfl

/-- C1: when `forkpty` fails, `RunInteractiveCommand` ends with the exception while the
terminal stays in the raw mode `_SetRawMode` put it in, which differs from the cooked
mode captured on entry. -/
theorem RunInteractiveCommand_forkpty_failure_keeps_raw :
    RunInteractiveCommand "cfdisk".toList "/dev/sda".toList .failed [] 0 { tty := cookedMode }
      = (.threw .system_error, { tty := rawSettings cookedMode }) ∧
    (_SetRawMode cookedMode).1 = cookedMode ∧
    rawSettings cookedMode ≠ cookedMode := by
  refine ⟨rfl, rfl, ?_⟩
  decide

/-! ## The compositor: concrete runs -/

theorem threeLayers_reachable : Reachable threeLayers := by
  have h1 : CreateLayer {} 1 24 80 0 0 = .ok (0, oneLayer) := rfl
  have h2 : CreateLayer oneLayer 2 24 80 0 0 = .ok (1, twoLayers) := rfl
  have h3 : CreateLayer twoLayers 3 24 80 0 0 = .ok (2, threeLayers) := rfl
  exact .createLayer (.createLayer (.createLayer .fresh h1) h2) h3

theorem mainAndSub_reachable : Reachable mainAndSub := by
  have h1 : CreateLayer {} 1 24 80 0 0 = .ok (0, oneLayer) := rfl
  have h2 : CreateSubLayer oneLayer 2 0 22 22 1 1 = .ok (1, mainAndSub) := rfl
  exact .createSubLayer (.createLayer .fresh h1) h2

/-- C2: after three `CreateLayer` calls, `DestroyLayer(0)` returns with two layers and
`m_OrderVector == {1, 2}`: the lengths agree, but the layer `m_OrderVector[0]` names has
stored order 3 instead of 1, and `m_OrderVector[1]` is no index into `m_Layers` at all. -/
theorem DestroyLayer_keeps_stale_handles_and_orders :
    Reachable threeLayers ∧ ValidHandle threeLayers 0 ∧
    (∃ r2, DestroyLayer threeLayers 0 = .ok r2 ∧
      r2.m_Layers.length = 2 ∧ r2.m_OrderVector = [1, 2] ∧
      GetLayerOrder r2 1 = .ok 3 ∧ GetLayerOrder r2 2 = .error .undefined ∧
      ¬ OrdersMatch r2) := by
  refine ⟨threeLayers_reachable, by decide, _, rfl, rfl, rfl, rfl, rfl, ?_⟩
  decide

/-- C3: on the state holding one top-level layer and its sub-layer, `DestroyLayer` of the
top-level layer destroys the child and then the layer itself: no layer is left. -/
theorem DestroyLayer_parent_of_last_pair_leaves_none :
    Reachable mainAndSub ∧ ValidHandle mainAndSub 0 ∧ mainAndSub.m_Layers.length = 2 ∧
    DestroyLayer mainAndSub 0 = .ok { m_Layers := [], m_OrderVector := [] } := by
  refine ⟨mainAndSub_reachable, by decide, rfl, rfl⟩

/-! ## The compositor: rejected sub-layer requests -/

theorem layerAt_eq_ok {ls : List LayerProp} {handle : Int} {l : LayerProp}
    (h : layerAt ls handle = .ok l) :
    0 ≤ handle ∧ handle.toNat < ls.length ∧ ls[handle.toNat]? = some l := by
  unfold layerAt at h
  cases hg : ls[handle.toNat]? with
  | none => rw [hg] at h; simp at h
  | some x =>
    rw [hg] at h
    by_cases h0 : 0 ≤ handle
    · simp [h0] at h
      subst h
      exact ⟨h0, (List.getElem?_eq_some.mp hg).1, rfl⟩
    · simp [h0] at h

theorem layerAt_of_valid {ls : List LayerProp} {handle : Int}
    (h0 : 0 ≤ handle) (h1 : handle < (ls.length : Int)) :
    ∃ l, layerAt ls handle = .ok l ∧ ls[handle.toNat]? = some l := by
  have hlt : handle.toNat < ls.length := by
    have := Int.toNat_of_nonneg h0
    omega
  refine ⟨ls[handle.toNat], ?_, List.getElem?_eq_getElem hlt⟩
  unfold layerAt
  rw [List.getElem?_eq_getElem hlt]
  simp [h0]

/-- C4: a sub-layer request whose parent handle is out of range, whose parent already has
a child or whose parent is itself a child returns `-1` and leaves the state as it was. -/
theorem CreateSubLayer_rejected (r : Renderer) (win : WINDOW) (parent : Int)
    (height width starty startx : Int)
    (h : parent < 0 ∨ (r.m_Layers.length : Int) ≤ parent ∨
      ∃ p, layerAt r.m_Layers parent = .ok p ∧ (p.child ≠ -1 ∨ p.parent ≠ -1)) :
    CreateSubLayer r win parent height width starty startx = .ok (-1, r) := by
  unfold CreateSubLayer
  by_cases hr : parent < 0 ∨ (r.m_Layers.length : Int) ≤ parent
  · rw [if_pos hr]
  · rw [if_neg hr]
    rcases h with h | h | ⟨p, hp, hc⟩
    · exact absurd (Or.inl h) hr
    · exact absurd (Or.inr h) hr
    · rw [hp]
      simp only
      rw [if_pos hc]

theorem CreateSubLayer_rejected_witness :
    CreateSubLayer mainAndSub 7 0 5 5 1 1 = .ok (-1, mainAndSub) ∧
    CreateSubLayer mainAndSub 7 1 5 5 1 1 = .ok (-1, mainAndSub) ∧
    CreateSubLayer mainAndSub 7 2 5 5 1 1 = .ok (-1, mainAndSub) :=
  ⟨CreateSubLayer_rejected mainAndSub 7 0 5 5 1 1
      (Or.inr (Or.inr ⟨_, rfl, Or.inl (by decide)⟩)),
   CreateSubLayer_rejected mainAndSub 7 1 5 5 1 1
      (Or.inr (Or.inr ⟨_, rfl, Or.inr (by decide)⟩)),
   CreateSubLayer_rejected mainAndSub 7 2 5 5 1 1 (Or.inr (Or.inl (by decide)))⟩

/-! ## The selectable list -/

/-- C9: `IsSelected` returns the latch and leaves it clear, changing nothing else, so a
second call returns `false`; after an Enter key event the first call returns `true` and
the second `false`. -/
theorem IsSelected_edge_triggered (m : Menu) (event : KeyEvent)
    (hkey : event.GetKey 0 = '\n' ∨ event.GetKey 0 = '\r') :
    (IsSelected m).1 = m.m_selected ∧
    (IsSelected m).2 = { m with m_selected := false } ∧
    (IsSelected (IsSelected m).2).1 = false ∧
    (IsSelected (OnEvent m event)).1 = true ∧
    (IsSelected (IsSelected (OnEvent m event)).2).1 = false := by
  have hclear : ∀ x : Menu, (IsSelected (IsSelected x).2).1 = false := by
    intro x
    rcases x with ⟨menu, sel, opts, driven, held⟩
    cases sel <;> rfl
  have hset : (OnEvent m event).m_selected = true := by
    unfold OnEvent
    by_cases hs : m.m_selected = true
    · rw [if_pos hs]; exact hs
    · rw [if_neg hs]
      have h0 : event.GetKey 0 ≠ '\x1b' := by
        rcases hkey with h | h <;> rw [h] <;> decide
      have h1 : event.GetKey 0 ≠ ' ' := by
        rcases hkey with h | h <;> rw [h] <;> decide
      simp [h0, h1, hkey]
  refine ⟨?_, ?_, hclear m, ?_, hclear _⟩
  · rcases m with ⟨menu, sel, opts, driven, held⟩
    cases sel <;> rfl
  · rcases m with ⟨menu, sel, opts, driven, held⟩
    cases sel <;> rfl
  · unfold IsSelected
    rw [if_pos hset]

theorem IsSelected_edge_triggered_witness :
    (IsSelected menuAB).1 = menuAB.m_selected ∧
    (IsSelected menuAB).2 = { menuAB with m_selected := false } ∧
    (IsSelected (IsSelected menuAB).2).1 = false ∧
    (IsSelected (OnEvent menuAB enterKey)).1 = true ∧
    (IsSelected (IsSelected (OnEvent menuAB enterKey)).2).1 = false :=
  IsSelected_edge_triggered menuAB enterKey (Or.inl rfl)

theorem appendMarked_eq (items : List ITEM) (selected : List Char) :
    appendMarked items selected
      = selected ++ ((markedNames items).map (fun name => name ++ [' '])).flatten := by
  induction items generalizing selected with
  | nil => simp [appendMarked, markedNames]
  | cons item rest ih =>
    unfold appendMarked
    by_cases hv : item.value = true
    · rw [if_pos hv, ih]
      simp [markedNames, List.filter_cons, hv]
    · rw [if_neg hv, ih]
      simp [markedNames, List.filter_cons, hv]

theorem join_trailing_eq_spaceJoined (names : List (List Char)) (hne : names ≠ []) :
    (names.map (fun name => name ++ [' '])).flatten = spaceJoined names ++ [' '] := by
  induction names with
  | nil => exact absurd rfl hne
  | cons a rest ih =>
    cases rest with
    | nil => simp [spaceJoined, List.intercalate]
    | cons b rest2 =>
      have h := ih (by simp)
      simp only [List.map_cons, List.flatten_cons] at h ⊢
      rw [h]
      simp [spaceJoined, List.intercalate, List.intersperse]

/-- C10 (as stated, refuted): with the items `a` and `b` marked, `GetSelected` returns
`"a b "`, which is not the names joined by single spaces, `"a b"`. -/
theorem GetSelected_not_spaceJoined :
    markedNames [⟨['a'], true⟩, ⟨['b'], true⟩, ⟨['c'], false⟩] = [['a'], ['b']] ∧
    spaceJoined [['a'], ['b']] = "a b".toList ∧
    GetSelected menuAB = .ok "a b ".toList ∧
    GetSelected menuAB ≠ .ok (spaceJoined [['a'], ['b']]) := by
  refine ⟨rfl, rfl, rfl, ?_⟩
  intro h
  have h2 : GetSelected menuAB = .ok "a b ".toList := rfl
  rw [h2] at h
  injection h with h3
  revert h3
  decide

/-- C10 (amended): in toggle mode `GetSelected` returns, in display order, the name of
every item whose value is set, each followed by one space: the marked names joined by
single spaces plus one trailing space, and the empty string when no item is marked. -/
theorem GetSelected_toggle_mode (m : Menu) (menu : MENU) (hm : m.m_Menu = some menu)
    (ht : m.m_MenuOpts.m_Togglable = true) :
    GetSelected m = .ok (if markedNames menu.items = [] then []
      else spaceJoined (markedNames menu.items) ++ [' ']) := by
  have h : GetSelected m
      = .ok (((markedNames menu.items).map (fun name => name ++ [' '])).flatten) := by
    unfold GetSelected
    rw [hm]
    simp only [ht]
    rw [appendMarked_eq]
    simp
  by_cases he : markedNames menu.items = []
  · rw [h, if_pos he, he]
    rfl
  · rw [h, if_neg he, join_trailing_eq_spaceJoined _ he]

theorem GetSelected_toggle_mode_witness :
    GetSelected menuAB = .ok (if markedNames [⟨['a'], true⟩, ⟨['b'], true⟩,
        ⟨['c'], false⟩] = [] then []
      else spaceJoined (markedNames [⟨['a'], true⟩, ⟨['b'], true⟩, ⟨['c'], false⟩])
        ++ [' ']) :=
  GetSelected_toggle_mode menuAB ⟨[⟨['a'], true⟩, ⟨['b'], true⟩, ⟨['c'], false⟩], 0⟩ rfl rfl

/-! ## The compositor: what a returning call did -/

theorem setOrder_eq_ok {ls ls2 : List LayerProp} {handle o : Int}
    (h : setOrder ls handle o = .ok ls2) :
    ∃ l, layerAt ls handle = .ok l ∧ ls2 = ls.set handle.toNat { l with order := o } := by
  unfold setOrder at h
  cases hl : layerAt ls handle with
  | error e => rw [hl] at h; simp at h
  | ok l =>
    rw [hl] at h
    simp only [Except.ok.injEq] at h
    exact ⟨l, rfl, h.symm⟩

theorem setChild_eq_ok {ls ls2 : List LayerProp} {handle c : Int}
    (h : setChild ls handle c = .ok ls2) :
    ∃ l, layerAt ls handle = .ok l ∧ ls2 = ls.set handle.toNat { l with child := c } := by
  unfold setChild at h
  cases hl : layerAt ls handle with
  | error e => rw [hl] at h; simp at h
  | ok l =>
    rw [hl] at h
    simp only [Except.ok.injEq] at h
    exact ⟨l, rfl, h.symm⟩

theorem moveInOrder_eq_ok {r r2 : Renderer} {handle : Int} {n : Nat}
    (h : moveInOrder r handle n = .ok r2) :
    r2 = r ∨ ∃ ls, r.m_OrderVector.indexOf handle < r.m_OrderVector.length ∧
      n - 1 ≤ (r.m_OrderVector.eraseIdx (r.m_OrderVector.indexOf handle)).length ∧
      updateOrders 0
        (vecInsert (r.m_OrderVector.eraseIdx (r.m_OrderVector.indexOf handle)) (n - 1) handle)
        r.m_Layers = .ok ls ∧
      r2 = { r with
        m_Layers := ls
        m_OrderVector :=
          vecInsert (r.m_OrderVector.eraseIdx (r.m_OrderVector.indexOf handle)) (n - 1)
            handle } := by
  unfold moveInOrder at h
  by_cases h1 : r.m_OrderVector.length ≤ r.m_OrderVector.indexOf handle
  · rw [if_pos h1] at h
    exact Or.inl (Except.ok.inj h).symm
  · rw [if_neg h1] at h
    by_cases h2 : (r.m_OrderVector.eraseIdx (r.m_OrderVector.indexOf handle)).length < n - 1
    · rw [if_pos h2] at h
      exact Except.noConfusion h
    · rw [if_neg h2] at h
      right
      cases hu : updateOrders 0
          (vecInsert (r.m_OrderVector.eraseIdx (r.m_OrderVector.indexOf handle)) (n - 1) handle)
          r.m_Layers with
      | error e => rw [hu] at h; exact Except.noConfusion h
      | ok ls =>
        rw [hu] at h
        exact ⟨ls, by omega, by omega, rfl, (Except.ok.inj h).symm⟩

theorem ChangeLayerOrder_eq_ok {r r2 : Renderer} {handle : Int} {newOrder : Nat}
    (h : ChangeLayerOrder r handle newOrder = .ok r2) :
    r2 = r ∨ moveInOrder r handle (clampOrder newOrder r.m_OrderVector.length) = .ok r2 := by
  unfold ChangeLayerOrder at h
  by_cases h1 : r.m_Layers.length = 1
  · rw [if_pos h1] at h
    exact Or.inl (Except.ok.inj h).symm
  · rw [if_neg h1] at h
    cases hl : layerAt r.m_Layers handle with
    | error e => rw [hl] at h; exact Except.noConfusion h
    | ok l =>
      rw [hl] at h
      by_cases h2 : clampOrder newOrder r.m_OrderVector.length = toUnsigned l.order
      · simp only [if_pos h2] at h
        exact Or.inl (Except.ok.inj h).symm
      · simp only [if_neg h2] at h
        exact Or.inr h

theorem DestroyLayerFuel_eq_ok {fuel : Nat} {r r2 : Renderer} {handle : Int}
    (h : DestroyLayerFuel (fuel + 1) r handle = .ok r2) :
    (r.m_Layers.length = 1 ∧ r2 = r) ∨
    ∃ l r1 l1 ls2, r.m_Layers.length ≠ 1 ∧ layerAt r.m_Layers handle = .ok l ∧
      ((l.child ≠ -1 ∧ DestroyLayerFuel fuel r l.child = .ok r1) ∨ (l.child = -1 ∧ r1 = r)) ∧
      layerAt r1.m_Layers handle = .ok l1 ∧
      ((l1.parent ≠ -1 ∧ setChild r1.m_Layers l1.parent (-1) = .ok ls2) ∨
        (l1.parent = -1 ∧ ls2 = r1.m_Layers)) ∧
      r1.m_OrderVector.indexOf handle < r1.m_OrderVector.length ∧
      r2 = { r1 with
        m_Layers := ls2.eraseIdx handle.toNat
        m_OrderVector := r1.m_OrderVector.eraseIdx (r1.m_OrderVector.indexOf handle) } := by
  unfold DestroyLayerFuel at h
  by_cases h1 : r.m_Layers.length = 1
  · rw [if_pos h1] at h
    exact Or.inl ⟨h1, (Except.ok.inj h).symm⟩
  · rw [if_neg h1] at h
    right
    cases hl : layerAt r.m_Layers handle with
    | error e => rw [hl] at h; exact Except.noConfusion h
    | ok l =>
      rw [hl] at h
      simp only at h
      cases hrec : (if l.child ≠ -1 then DestroyLayerFuel fuel r l.child else .ok r) with
      | error e => rw [hrec] at h; exact Except.noConfusion h
      | ok r1 =>
        rw [hrec] at h
        simp only at h
        cases hl1 : layerAt r1.m_Layers handle with
        | error e => rw [hl1] at h; exact Except.noConfusion h
        | ok l1 =>
          rw [hl1] at h
          simp only at h
          cases hset : (if l1.parent ≠ -1 then setChild r1.m_Layers l1.parent (-1)
              else .ok r1.m_Layers) with
          | error e => rw [hset] at h; exact Except.noConfusion h
          | ok ls2 =>
            rw [hset] at h
            simp only at h
            by_cases hit : r1.m_OrderVector.length ≤ r1.m_OrderVector.indexOf handle
            · rw [if_pos hit] at h
              exact Except.noConfusion h
            · rw [if_neg hit] at h
              refine ⟨l, r1, l1, ls2, h1, rfl, ?_, hl1, ?_, by omega, (Except.ok.inj h).symm⟩
              · by_cases hc : l.child ≠ -1
                · rw [if_pos hc] at hrec
                  exact Or.inl ⟨hc, hrec⟩
                · rw [if_neg hc] at hrec
                  exact Or.inr ⟨not_not.mp hc, (Except.ok.inj hrec).symm⟩
              · by_cases hp : l1.parent ≠ -1
                · rw [if_pos hp] at hset
                  exact Or.inl ⟨hp, hset⟩
                · rw [if_neg hp] at hset
                  exact Or.inr ⟨not_not.mp hp, (Except.ok.inj hset).symm⟩

/-- A call of `DestroyLayer` that returns within some depth of recursion returns the
same state when more depth is allowed. -/
theorem DestroyLayerFuel_succ {fuel : Nat} {r r2 : Renderer} {handle : Int}
    (h : DestroyLayerFuel fuel r handle = .ok r2) :
    DestroyLayerFuel (fuel + 1) r handle = .ok r2 := by
  induction fuel generalizing r r2 handle with
  | zero =>
    unfold DestroyLayerFuel at h
    exact Except.noConfusion h
  | succ n ih =>
    rcases DestroyLayerFuel_eq_ok h with
      ⟨h1, rfl⟩ | ⟨l, r1, l1, ls2, hne, hl, hrec, hl1, hset, hit, rfl⟩
    · unfold DestroyLayerFuel
      rw [if_pos h1]
    · have hrec2 : (if l.child ≠ -1 then DestroyLayerFuel (n + 1) r l.child else .ok r)
          = .ok r1 := by
        rcases hrec with ⟨hc, hr⟩ | ⟨hc, rfl⟩
        · rw [if_pos hc]
          exact ih hr
        · rw [if_neg (not_not.mpr hc)]
      have hset2 : (if l1.parent ≠ -1 then setChild r1.m_Layers l1.parent (-1)
          else .ok r1.m_Layers) = .ok ls2 := by
        rcases hset with ⟨hp, hs⟩ | ⟨hp, rfl⟩
        · rw [if_pos hp]
          exact hs
        · rw [if_neg (not_not.mpr hp)]
      unfold DestroyLayerFuel
      rw [if_neg hne, hl]
      simp only
      rw [hrec2]
      simp only
      rw [hl1]
      simp only
      rw [hset2]
      simp only
      rw [if_neg (by omega)]

theorem DestroyLayerFuel_mono {fuel more : Nat} {r r2 : Renderer} {handle : Int}
    (h : DestroyLayerFuel fuel r handle = .ok r2) :
    DestroyLayerFuel (fuel + more) r handle = .ok r2 := by
  induction more with
  | zero => exact h
  | succ k ih => exact DestroyLayerFuel_succ ih

/-! ## The compositor: invariants of the reachable states -/

theorem DepthOne_set {ls : List LayerProp} {i : Nat} {x : LayerProp} (h : DepthOne ls)
    (hx : x.parent ≠ -1 → x.child = -1) : DepthOne (ls.set i x) := by
  intro l hl
  rcases List.mem_or_eq_of_mem_set hl with hm | he
  · exact h l hm
  · rw [he]; exact hx

theorem DepthOne_eraseIdx {ls : List LayerProp} (i : Nat) (h : DepthOne ls) :
    DepthOne (ls.eraseIdx i) :=
  fun l hl => h l (List.mem_of_mem_eraseIdx hl)

theorem layerAt_mem {ls : List LayerProp} {handle : Int} {l : LayerProp}
    (h : layerAt ls handle = .ok l) : l ∈ ls :=
  List.getElem?_mem (layerAt_eq_ok h).2.2

theorem setOrder_depthOne {ls ls2 : List LayerProp} {handle o : Int}
    (h : setOrder ls handle o = .ok ls2) (hd : DepthOne ls) : DepthOne ls2 := by
  obtain ⟨l, hl, rfl⟩ := setOrder_eq_ok h
  exact DepthOne_set hd (hd l (layerAt_mem hl))

theorem setOrder_length {ls ls2 : List LayerProp} {handle o : Int}
    (h : setOrder ls handle o = .ok ls2) : ls2.length = ls.length := by
  obtain ⟨l, _, rfl⟩ := setOrder_eq_ok h
  simp

theorem setChild_length {ls ls2 : List LayerProp} {handle c : Int}
    (h : setChild ls handle c = .ok ls2) : ls2.length = ls.length := by
  obtain ⟨l, _, rfl⟩ := setChild_eq_ok h
  simp

theorem updateOrders_cons_eq_ok {i : Nat} {h : Int} {rest : List Int}
    {ls ls2 : List LayerProp} (hu : updateOrders i (h :: rest) ls = .ok ls2) :
    ∃ ls1, setOrder ls h ((i : Int) + 1) = .ok ls1 ∧ updateOrders (i + 1) rest ls1 = .ok ls2 := by
  unfold updateOrders at hu
  cases hs : setOrder ls h ((i : Int) + 1) with
  | error e => rw [hs] at hu; exact Except.noConfusion hu
  | ok ls1 => rw [hs] at hu; exact ⟨ls1, rfl, hu⟩

theorem updateOrders_length (ov : List Int) (i : Nat) (ls ls2 : List LayerProp)
    (hu : updateOrders i ov ls = .ok ls2) : ls2.length = ls.length := by
  induction ov generalizing i ls with
  | nil =>
    unfold updateOrders at hu
    rw [← Except.ok.inj hu]
  | cons h rest ih =>
    obtain ⟨ls1, hs, hr⟩ := updateOrders_cons_eq_ok hu
    rw [ih _ _ hr, setOrder_length hs]

theorem updateOrders_depthOne (ov : List Int) (i : Nat) (ls ls2 : List LayerProp)
    (hu : updateOrders i ov ls = .ok ls2) (hd : DepthOne ls) : DepthOne ls2 := by
  induction ov generalizing i ls with
  | nil =>
    unfold updateOrders at hu
    rw [← Except.ok.inj hu]
    exact hd
  | cons h rest ih =>
    obtain ⟨ls1, hs, hr⟩ := updateOrders_cons_eq_ok hu
    exact ih _ _ hr (setOrder_depthOne hs hd)

theorem vecInsert_length (v : List Int) (k : Nat) (x : Int) (hk : k ≤ v.length) :
    (vecInsert v k x).length = v.length + 1 := by
  unfold vecInsert
  simp only [List.length_append, List.length_take, List.length_cons, List.length_drop]
  omega

theorem moveInOrder_lengths {r r2 : Renderer} {handle : Int} {n : Nat}
    (h : moveInOrder r handle n = .ok r2) :
    r2.m_Layers.length = r.m_Layers.length ∧
    r2.m_OrderVector.length = r.m_OrderVector.length := by
  rcases moveInOrder_eq_ok h with rfl | ⟨ls, hit, hk, hu, rfl⟩
  · exact ⟨rfl, rfl⟩
  · refine ⟨updateOrders_length _ _ _ _ hu, ?_⟩
    simp only
    rw [vecInsert_length _ _ _ hk, List.length_eraseIdx]
    rw [if_pos hit]
    omega

theorem ChangeLayerOrder_lengths {r r2 : Renderer} {handle : Int} {newOrder : Nat}
    (h : ChangeLayerOrder r handle newOrder = .ok r2) :
    r2.m_Layers.length = r.m_Layers.length ∧
    r2.m_OrderVector.length = r.m_OrderVector.length := by
  rcases ChangeLayerOrder_eq_ok h with rfl | hm
  · exact ⟨rfl, rfl⟩
  · exact moveInOrder_lengths hm

theorem ChangeLayerOrder_depthOne {r r2 : Renderer} {handle : Int} {newOrder : Nat}
    (h : ChangeLayerOrder r handle newOrder = .ok r2) (hd : DepthOne r.m_Layers) :
    DepthOne r2.m_Layers := by
  rcases ChangeLayerOrder_eq_ok h with rfl | hm
  · exact hd
  · rcases moveInOrder_eq_ok hm with rfl | ⟨ls, _, _, hu, rfl⟩
    · exact hd
    · exact updateOrders_depthOne _ _ _ _ hu hd

theorem CreateLayer_eq_ok {r r2 : Renderer} {win : WINDOW} {height width starty startx id : Int}
    (h : CreateLayer r win height width starty startx = .ok (id, r2)) :
    ∃ layer : LayerProp, layer.child = -1 ∧
      r2 = { r with
        m_Layers := r.m_Layers ++ [layer]
        m_OrderVector := r.m_OrderVector ++ [((r.m_Layers ++ [layer]).length : Int) - 1] } := by
  unfold CreateLayer at h
  by_cases hw : win = 0
  · rw [if_pos hw] at h
    exact Except.noConfusion h
  · rw [if_neg hw] at h
    have h2 := Except.ok.inj h
    simp only [Prod.mk.injEq] at h2
    exact ⟨_, rfl, h2.2.symm⟩

theorem CreateSubLayer_eq_ok {r r2 : Renderer} {win : WINDOW}
    {parent height width starty startx id : Int}
    (h : CreateSubLayer r win parent height width starty startx = .ok (id, r2)) :
    r2 = r ∨ ∃ (p layer : LayerProp), layerAt r.m_Layers parent = .ok p ∧ p.parent = -1 ∧
      layer.child = -1 ∧
      r2 = { r with
        m_Layers :=
          r.m_Layers.set parent.toNat { p with child := (r.m_Layers.length : Int) } ++ [layer]
        m_OrderVector := r.m_OrderVector ++
          [((r.m_Layers.set parent.toNat { p with child := (r.m_Layers.length : Int) }
            ++ [layer]).length : Int) - 1] } := by
  unfold CreateSubLayer at h
  by_cases h1 : parent < 0 ∨ (r.m_Layers.length : Int) ≤ parent
  · rw [if_pos h1] at h
    have h2 := Except.ok.inj h
    simp only [Prod.mk.injEq] at h2
    exact Or.inl h2.2.symm
  · rw [if_neg h1] at h
    cases hl : layerAt r.m_Layers parent with
    | error e => rw [hl] at h; exact Except.noConfusion h
    | ok p =>
      rw [hl] at h
      simp only at h
      by_cases h2 : p.child ≠ -1 ∨ p.parent ≠ -1
      · rw [if_pos h2] at h
        have h3 := Except.ok.inj h
        simp only [Prod.mk.injEq] at h3
        exact Or.inl h3.2.symm
      · rw [if_neg h2] at h
        by_cases hw : win = 0
        · rw [if_pos hw] at h
          exact Except.noConfusion h
        · rw [if_neg hw] at h
          have hsc : setChild r.m_Layers parent (r.m_Layers.length : Int)
              = .ok (r.m_Layers.set parent.toNat { p with child := (r.m_Layers.length : Int) }) := by
            unfold setChild
            rw [hl]
          rw [hsc] at h
          have h3 := Except.ok.inj h
          simp only [Prod.mk.injEq] at h3
          have hpp : p.parent = -1 := by
            by_contra hne
            exact h2 (Or.inr hne)
          exact Or.inr ⟨p, _, rfl, hpp, rfl, h3.2.symm⟩

theorem DestroyLayerFuel_inv (fuel : Nat) (r r2 : Renderer) (handle : Int)
    (h : DestroyLayerFuel fuel r handle = .ok r2)
    (hlen : r.m_OrderVector.length = r.m_Layers.length) (hd : DepthOne r.m_Layers) :
    r2.m_OrderVector.length = r2.m_Layers.length ∧ DepthOne r2.m_Layers := by
  induction fuel generalizing r r2 handle with
  | zero =>
    unfold DestroyLayerFuel at h
    exact Except.noConfusion h
  | succ fuel ih =>
    rcases DestroyLayerFuel_eq_ok h with
      ⟨_, rfl⟩ | ⟨l, r1, l1, ls2, _, hl, hrec, hl1, hset, hit, rfl⟩
    · exact ⟨hlen, hd⟩
    · have h1 : r1.m_OrderVector.length = r1.m_Layers.length ∧ DepthOne r1.m_Layers := by
        rcases hrec with ⟨_, hr⟩ | ⟨_, rfl⟩
        · exact ih r r1 l.child hr hlen hd
        · exact ⟨hlen, hd⟩
      have h2 : ls2.length = r1.m_Layers.length ∧ DepthOne ls2 := by
        rcases hset with ⟨_, hs⟩ | ⟨_, rfl⟩
        · refine ⟨setChild_length hs, ?_⟩
          obtain ⟨q, _, rfl⟩ := setChild_eq_ok hs
          exact DepthOne_set h1.2 (fun _ => rfl)
        · exact ⟨rfl, h1.2⟩
      have hv := layerAt_eq_ok hl1
      refine ⟨?_, DepthOne_eraseIdx _ h2.2⟩
      simp only
      rw [List.length_eraseIdx, List.length_eraseIdx, if_pos hit, if_pos (by rw [h2.1]; exact hv.2.1)]
      rw [h1.1, h2.1]

theorem Reachable_inv {r : Renderer} (h : Reachable r) :
    r.m_OrderVector.length = r.m_Layers.length ∧ DepthOne r.m_Layers := by
  induction h with
  | fresh =>
    refine ⟨rfl, ?_⟩
    intro l hl
    simp at hl
  | createLayer _ hc ih =>
    obtain ⟨layer, hch, rfl⟩ := CreateLayer_eq_ok hc
    refine ⟨by simp [ih.1], ?_⟩
    intro l hl
    rcases List.mem_append.mp hl with hm | hm
    · exact ih.2 l hm
    · rw [List.mem_singleton.mp hm]
      exact fun _ => hch
  | createSubLayer _ hc ih =>
    rcases CreateSubLayer_eq_ok hc with rfl | ⟨p, layer, hp, hpp, hch, rfl⟩
    · exact ih
    · refine ⟨by simp [ih.1], ?_⟩
      intro l hl
      rcases List.mem_append.mp hl with hm | hm
      · refine DepthOne_set ih.2 ?_ l hm
        exact fun hne => absurd hpp hne
      · rw [List.mem_singleton.mp hm]
        exact fun _ => hch
  | destroyLayer _ hc ih =>
    exact DestroyLayerFuel_inv _ _ _ _ hc ih.1 ih.2
  | changeLayerOrder _ hc ih =>
    have hl := ChangeLayerOrder_lengths hc
    exact ⟨by rw [hl.1, hl.2]; exact ih.1, ChangeLayerOrder_depthOne hc ih.2⟩

/-- C8: in every state reachable from a freshly constructed `Renderer` by returning calls
of `CreateLayer`, `CreateSubLayer`, `DestroyLayer` and `ChangeLayerOrder`, no layer has
both a parent and a child: `parent != -1` implies `child == -1` for every layer. -/
theorem Reachable_depth_one (r : Renderer) (h : Reachable r) : DepthOne r.m_Layers :=
  (Reachable_inv h).2

theorem Reachable_depth_one_witness : Reachable mainAndSub ∧ DepthOne mainAndSub.m_Layers :=
  ⟨mainAndSub_reachable, Reachable_depth_one mainAndSub mainAndSub_reachable⟩

/-! ## The compositor: reordering -/

theorem clampOrder_eq_clamp (newOrder size : Nat) (hs : size < 2 ^ 32) (h1 : 1 ≤ size) :
    clampOrder newOrder size = clamp newOrder 1 size := by
  unfold clampOrder clamp
  rw [Nat.mod_eq_of_lt hs]
  by_cases h0 : min newOrder size = 0
  · rw [if_pos h0, h0]; rfl
  · rw [if_neg h0]
    omega

theorem clampOrder_out_of_range (newOrder size : Nat) (hu : newOrder < 2 ^ 32)
    (hout : newOrder = 0 ∨ size < newOrder) :
    clampOrder newOrder size = clampOrder (if newOrder = 0 then 1 else size) size := by
  unfold clampOrder
  rcases hout with h0 | hgt
  · subst h0
    simp only [if_true, Nat.zero_min]
    by_cases hz : min 1 (size % 2 ^ 32) = 0
    · rw [if_pos hz]
    · rw [if_neg hz]
      omega
  · have hne : newOrder ≠ 0 := by omega
    have hs : size % 2 ^ 32 = size := Nat.mod_eq_of_lt (by omega)
    rw [if_neg hne, hs]
    have e1 : min newOrder size = size := by omega
    have e2 : min size size = size := by omega
    rw [e1, e2]

theorem ChangeLayerOrder_congr (r : Renderer) (handle : Int) (n1 n2 : Nat)
    (h : clampOrder n1 r.m_OrderVector.length = clampOrder n2 r.m_OrderVector.length) :
    ChangeLayerOrder r handle n1 = ChangeLayerOrder r handle n2 := by
  unfold ChangeLayerOrder
  rw [h]

/-- C6: in every reachable state, for every handle and every `unsigned int` value
`newOrder` outside `[1, N]`, with `N` the number of layers, `ChangeLayerOrder` gives the
same result as with the nearest value inside: `1` for `0`, `N` for a value above `N`. -/
theorem ChangeLayerOrder_out_of_range_clamped (r : Renderer) (handle : Int) (newOrder : Nat)
    (hr : Reachable r) (hu : newOrder < 2 ^ 32)
    (hout : newOrder = 0 ∨ r.m_Layers.length < newOrder) :
    ChangeLayerOrder r handle newOrder
      = ChangeLayerOrder r handle (if newOrder = 0 then 1 else r.m_Layers.length) := by
  apply ChangeLayerOrder_congr
  rw [(Reachable_inv hr).1]
  exact clampOrder_out_of_range newOrder _ hu hout

theorem ChangeLayerOrder_out_of_range_clamped_witness :
    (ChangeLayerOrder threeLayers 0 7 = ChangeLayerOrder threeLayers 0 3) ∧
    (ChangeLayerOrder threeLayers 2 0 = ChangeLayerOrder threeLayers 2 1) :=
  ⟨ChangeLayerOrder_out_of_range_clamped threeLayers 0 7 threeLayers_reachable (by decide)
      (Or.inr (by decide)),
   ChangeLayerOrder_out_of_range_clamped threeLayers 2 0 threeLayers_reachable (by decide)
      (Or.inl rfl)⟩

theorem GetLayerOrder_eq_ok {r : Renderer} {handle o : Int}
    (h : GetLayerOrder r handle = .ok o) :
    ∃ l, layerAt r.m_Layers handle = .ok l ∧ l.order = o := by
  unfold GetLayerOrder at h
  cases hl : layerAt r.m_Layers handle with
  | error e => rw [hl] at h; exact Except.noConfusion h
  | ok l => rw [hl] at h; exact ⟨l, rfl, Except.ok.inj h⟩

/-- C7: in a state where every layer's stored order equals its position, counted from 1,
in `m_OrderVector`, `ChangeLayerOrder(h, GetLayerOrder(h))` for a valid handle `h` returns
with `m_Layers` and `m_OrderVector` unchanged. -/
theorem ChangeLayerOrder_current_rank_noop (r : Renderer) (handle o : Int)
    (hm : OrdersMatch r) (ho : GetLayerOrder r handle = .ok o)
    (hsize : r.m_OrderVector.length < 2 ^ 32) :
    ChangeLayerOrder r handle (toUnsigned o) = .ok r := by
  obtain ⟨l, hl, rfl⟩ := GetLayerOrder_eq_ok ho
  obtain ⟨h0, hlt, hget⟩ := layerAt_eq_ok hl
  obtain ⟨i, hi, _, hord⟩ := hm handle.toNat hlt
  rw [hget] at hord
  simp only [Option.map_some', Option.some.injEq] at hord
  have hto : toUnsigned l.order = i + 1 := by
    unfold toUnsigned
    rw [hord]
    omega
  have hcl : clampOrder (i + 1) r.m_OrderVector.length = i + 1 := by
    unfold clampOrder
    rw [Nat.mod_eq_of_lt hsize]
    have e : min (i + 1) r.m_OrderVector.length = i + 1 := by omega
    rw [e, if_neg (by omega)]
  unfold ChangeLayerOrder
  by_cases h1 : r.m_Layers.length = 1
  · rw [if_pos h1]
  · rw [if_neg h1, hl]
    simp only
    rw [hto, hcl, if_pos rfl]

theorem ChangeLayerOrder_current_rank_noop_witness :
    OrdersMatch threeLayers ∧ GetLayerOrder threeLayers 1 = .ok 2 ∧
    ChangeLayerOrder threeLayers 1 (toUnsigned 2) = .ok threeLayers :=
  ⟨by decide, rfl,
   ChangeLayerOrder_current_rank_noop threeLayers 1 2 (by decide) rfl (by decide)⟩

theorem updateOrders_spec (ov : List Int) (i : Nat) (ls : List LayerProp)
    (hvalid : ∀ h ∈ ov, 0 ≤ h ∧ h < (ls.length : Int)) (hnd : ov.Nodup) :
    ∃ ls2, updateOrders i ov ls = .ok ls2 ∧ ls2.length = ls.length ∧
      (∀ (j : Nat) (h : Int), ov[j]? = some h →
        (ls2[h.toNat]?).map (fun l => l.order) = some ((i : Int) + j + 1)) ∧
      (∀ k : Nat, (k : Int) ∉ ov → ls2[k]? = ls[k]?) := by
  induction ov generalizing i ls with
  | nil =>
    refine ⟨ls, rfl, rfl, ?_, fun _ _ => rfl⟩
    intro j h hj
    simp at hj
  | cons h rest ih =>
    obtain ⟨h0, h1⟩ := hvalid h (List.mem_cons_self _ _)
    obtain ⟨l, hl, hget⟩ := layerAt_of_valid h0 h1
    have hlt : h.toNat < ls.length := (layerAt_eq_ok hl).2.1
    have hcast : ((h.toNat : Nat) : Int) = h := Int.toNat_of_nonneg h0
    have hs : setOrder ls h ((i : Int) + 1)
        = .ok (ls.set h.toNat { l with order := (i : Int) + 1 }) := by
      unfold setOrder
      rw [hl]
    obtain ⟨hnot, hnd2⟩ := List.nodup_cons.mp hnd
    obtain ⟨ls2, hu, hlen, hpos, hframe⟩ :=
      ih (i + 1) (ls.set h.toNat { l with order := (i : Int) + 1 })
        (fun x hx => by
          rw [List.length_set]
          exact hvalid x (List.mem_cons_of_mem _ hx)) hnd2
    refine ⟨ls2, ?_, ?_, ?_, ?_⟩
    · unfold updateOrders
      rw [hs]
      exact hu
    · rw [hlen, List.length_set]
    · intro j x hj
      cases j with
      | zero =>
        simp only [List.getElem?_cons_zero, Option.some.injEq] at hj
        subst hj
        rw [hframe h.toNat (by rw [hcast]; exact hnot)]
        rw [List.getElem?_set_eq_of_lt _ hlt]
        simp
      | succ j =>
        simp only [List.getElem?_cons_succ] at hj
        rw [hpos j x hj]
        congr 1
        push_cast
        ring
    · intro k hk
      have hk1 : (k : Int) ≠ h := fun e => hk (e ▸ List.mem_cons_self _ _)
      have hk2 : (k : Int) ∉ rest := fun e => hk (List.mem_cons_of_mem _ e)
      rw [hframe k hk2]
      have hne : h.toNat ≠ k := by
        intro e
        apply hk1
        rw [← e, hcast]
      rw [List.getElem?_set_ne hne]

theorem OrderIsPermutation_mem {r : Renderer} (hp : OrderIsPermutation r) (h : Int) :
    h ∈ r.m_OrderVector ↔ 0 ≤ h ∧ h < (r.m_Layers.length : Int) := by
  unfold OrderIsPermutation at hp
  rw [hp.mem_iff, List.mem_map]
  constructor
  · rintro ⟨k, hk, rfl⟩
    rw [List.mem_range] at hk
    omega
  · rintro ⟨h0, h1⟩
    exact ⟨h.toNat, List.mem_range.mpr (by omega), Int.toNat_of_nonneg h0⟩

theorem OrderIsPermutation_nodup {r : Renderer} (hp : OrderIsPermutation r) :
    r.m_OrderVector.Nodup := by
  unfold OrderIsPermutation at hp
  rw [hp.nodup_iff]
  exact (List.nodup_range _).map Nat.cast_injective

/-- C5: in a state with `N >= 2` layers whose `m_OrderVector` is a permutation of the
handles `0 .. N-1` and whose stored orders equal the positions counted from 1,
`ChangeLayerOrder(h, newOrder)` for a valid handle `h` returns; afterwards `h` sits at
position `clamp(newOrder, 1, N)` counted from 1, `m_OrderVector` without `h` is as
before, and the stored orders again equal the positions. -/
theorem ChangeLayerOrder_postcondition (r : Renderer) (handle : Int) (newOrder : Nat)
    (hN : 2 ≤ r.m_Layers.length) (hsize : r.m_Layers.length < 2 ^ 32)
    (hperm : OrderIsPermutation r) (hm : OrdersMatch r) (hv : ValidHandle r handle) :
    ∃ r2, ChangeLayerOrder r handle newOrder = .ok r2 ∧
      r2.m_OrderVector[clamp newOrder 1 r.m_Layers.length - 1]? = some handle ∧
      r2.m_OrderVector.erase handle = r.m_OrderVector.erase handle ∧
      r2.m_Layers.length = r.m_Layers.length ∧
      OrderIsPermutation r2 ∧ OrdersMatch r2 := by
  have hlenOV : r.m_OrderVector.length = r.m_Layers.length := by
    have := hperm.length_eq
    simpa using this
  have hnd := OrderIsPermutation_nodup hperm
  have hmem : handle ∈ r.m_OrderVector := (OrderIsPermutation_mem hperm handle).mpr hv
  obtain ⟨l, hl, hget⟩ := layerAt_of_valid hv.1 hv.2
  have hlt : handle.toNat < r.m_Layers.length := (layerAt_eq_ok hl).2.1
  have hcast : ((handle.toNat : Nat) : Int) = handle := Int.toNat_of_nonneg hv.1
  obtain ⟨i, hi, hiov, hord⟩ := hm handle.toNat hlt
  rw [hcast] at hiov
  rw [hget] at hord
  simp only [Option.map_some', Option.some.injEq] at hord
  have hto : toUnsigned l.order = i + 1 := by
    unfold toUnsigned
    rw [hord]
    omega
  have hc : clampOrder newOrder r.m_OrderVector.length
      = clamp newOrder 1 r.m_Layers.length := by
    rw [hlenOV]
    exact clampOrder_eq_clamp _ _ hsize (by omega)
  have hc1 : 1 ≤ clamp newOrder 1 r.m_Layers.length ∧
      clamp newOrder 1 r.m_Layers.length ≤ r.m_Layers.length := by
    unfold clamp
    omega
  generalize clamp newOrder 1 r.m_Layers.length = c at hc hc1 ⊢
  unfold ChangeLayerOrder
  rw [if_neg (by omega), hl]
  simp only
  rw [hc, hto]
  by_cases hsame : c = i + 1
  · rw [if_pos hsame]
    refine ⟨r, rfl, ?_, rfl, rfl, hperm, hm⟩
    rw [hsame]
    simpa using hiov
  · rw [if_neg hsame]
    have hit : r.m_OrderVector.indexOf handle < r.m_OrderVector.length :=
      List.indexOf_lt_length.mpr hmem
    have herase : r.m_OrderVector.eraseIdx (r.m_OrderVector.indexOf handle)
        = r.m_OrderVector.erase handle := List.eraseIdx_indexOf_eq_erase _ _
    have hel : (r.m_OrderVector.erase handle).length = r.m_Layers.length - 1 := by
      rw [List.length_erase_of_mem hmem, hlenOV]
    have hnot : handle ∉ r.m_OrderVector.erase handle := hnd.not_mem_erase
    have hpermov :
        (vecInsert (r.m_OrderVector.erase handle) (c - 1) handle).Perm r.m_OrderVector := by
      unfold vecInsert
      refine List.perm_middle.trans ?_
      rw [List.take_append_drop]
      exact (List.perm_cons_erase hmem).symm
    obtain ⟨ls2, hu, hlen2, hpos, _⟩ :=
      updateOrders_spec (vecInsert (r.m_OrderVector.erase handle) (c - 1) handle) 0 r.m_Layers
        (fun x hx => (OrderIsPermutation_mem hperm x).mp (hpermov.mem_iff.mp hx))
        (hpermov.nodup_iff.mpr hnd)
    have htl : (List.take (c - 1) (r.m_OrderVector.erase handle)).length = c - 1 := by
      rw [List.length_take, hel]
      omega
    unfold moveInOrder
    rw [if_neg (by omega), herase, if_neg (by rw [hel]; omega), hu]
    refine ⟨_, rfl, ?_, ?_, hlen2, ?_, ?_⟩
    · simp only
      unfold vecInsert
      rw [List.getElem?_append_right (by rw [htl]), htl, Nat.sub_self]
      exact List.getElem?_cons_zero
    · simp only
      unfold vecInsert
      rw [List.erase_append_right _ (fun hx => hnot (List.mem_of_mem_take hx)),
        List.erase_cons_head, List.take_append_drop]
    · unfold OrderIsPermutation
      simp only
      rw [hlen2]
      exact hpermov.trans hperm
    · intro k hk
      simp only at hk ⊢
      rw [hlen2] at hk
      have hkmem : (k : Int) ∈ vecInsert (r.m_OrderVector.erase handle) (c - 1) handle :=
        hpermov.mem_iff.mpr ((OrderIsPermutation_mem hperm k).mpr ⟨by omega, by omega⟩)
      obtain ⟨j, hj⟩ := List.mem_iff_getElem?.mp hkmem
      obtain ⟨hjlt, _⟩ := List.getElem?_eq_some.mp hj
      refine ⟨j, hjlt, hj, ?_⟩
      have := hpos j k hj
      simpa using this

theorem ChangeLayerOrder_postcondition_witness :
    ∃ r2, ChangeLayerOrder threeLayers 0 7 = .ok r2 ∧
      r2.m_OrderVector[clamp 7 1 threeLayers.m_Layers.length - 1]? = some 0 ∧
      r2.m_OrderVector.erase 0 = threeLayers.m_OrderVector.erase 0 ∧
      r2.m_Layers.length = threeLayers.m_Layers.length ∧
      OrderIsPermutation r2 ∧ OrdersMatch r2 :=
  ChangeLayerOrder_postcondition threeLayers 0 7 (by decide) (by decide) (by decide)
    (by decide) (by decide)

/-! ## The selectable list: key events -/

/-- C11: once the latch is set, `OnEvent` returns the state it was given for every key
buffer: no request reaches `menu_driver`, `m_selected` stays `true`, and the togglable
flag and the mark are as before. -/
theorem OnEvent_ignored_when_selected (m : Menu) (event : KeyEvent)
    (hsel : m.m_selected = true) :
    OnEvent m event = m ∧ (OnEvent m event).driven = m.driven ∧
    (OnEvent m event).m_selected = true ∧
    (OnEvent m event).m_MenuOpts = m.m_MenuOpts := by
  have h : OnEvent m event = m := by
    unfold OnEvent
    rw [if_pos hsel]
  rw [h]
  exact ⟨rfl, rfl, hsel, rfl⟩

theorem OnEvent_ignored_when_selected_witness :
    OnEvent menuABSelected enterKey = menuABSelected ∧
    (OnEvent menuABSelected enterKey).driven = menuABSelected.driven ∧
    (OnEvent menuABSelected enterKey).m_selected = true ∧
    (OnEvent menuABSelected enterKey).m_MenuOpts = menuABSelected.m_MenuOpts :=
  OnEvent_ignored_when_selected menuABSelected enterKey rfl

theorem append_singleton_ne_self {α : Type} (l : List α) (a : α) : l ≠ l ++ [a] := by
  intro h
  have := congrArg List.length h
  simp at this

/-- C19: with the latch clear, `OnEvent` hands `menu_driver` exactly the request of the
escape sequence (`ESC [ A`, `B`, `5`, `6`), hands it `REQ_TOGGLE_ITEM` exactly when the
menu is togglable and the first byte is a space, sets `m_selected` exactly when the first
byte is `'\n'` or `'\r'`, and leaves the state as it was for every other key. -/
theorem OnEvent_classifies_key (m : Menu) (event : KeyEvent) (hsel : m.m_selected = false) :
    (IsEscape event 'A' → OnEvent m event = menu_driver m .REQ_UP_ITEM) ∧
    (IsEscape event 'B' → OnEvent m event = menu_driver m .REQ_DOWN_ITEM) ∧
    (IsEscape event '5' → OnEvent m event = menu_driver m .REQ_SCR_UPAGE) ∧
    (IsEscape event '6' → OnEvent m event = menu_driver m .REQ_SCR_DPAGE) ∧
    ((m.m_MenuOpts.m_Togglable = true ∧ event.GetKey 0 = ' ') →
      OnEvent m event = menu_driver m .REQ_TOGGLE_ITEM) ∧
    ((OnEvent m event).driven = m.driven ++ [.REQ_TOGGLE_ITEM] ↔
      (m.m_MenuOpts.m_Togglable = true ∧ event.GetKey 0 = ' ')) ∧
    (IsEnter event → OnEvent m event = { m with m_selected := true }) ∧
    ((OnEvent m event).m_selected = true ↔ IsEnter event) ∧
    ((¬ IsEscape event 'A' ∧ ¬ IsEscape event 'B' ∧ ¬ IsEscape event '5' ∧
        ¬ IsEscape event '6' ∧ ¬ (m.m_MenuOpts.m_Togglable = true ∧ event.GetKey 0 = ' ') ∧
        ¬ IsEnter event) →
      OnEvent m event = m) := by
  have hA : IsEscape event 'A' → OnEvent m event = menu_driver m .REQ_UP_ITEM := by
    intro h
    unfold IsEscape at h
    unfold OnEvent
    simp [hsel, h]
  have hB : IsEscape event 'B' → OnEvent m event = menu_driver m .REQ_DOWN_ITEM := by
    intro h
    unfold IsEscape at h
    unfold OnEvent
    simp [hsel, h]
  have h5 : IsEscape event '5' → OnEvent m event = menu_driver m .REQ_SCR_UPAGE := by
    intro h
    unfold IsEscape at h
    unfold OnEvent
    simp [hsel, h]
  have h6 : IsEscape event '6' → OnEvent m event = menu_driver m .REQ_SCR_DPAGE := by
    intro h
    unfold IsEscape at h
    unfold OnEvent
    simp [hsel, h]
  have hT : (m.m_MenuOpts.m_Togglable = true ∧ event.GetKey 0 = ' ') →
      OnEvent m event = menu_driver m .REQ_TOGGLE_ITEM := by
    intro h
    unfold OnEvent
    simp [hsel, h]
  have hE : ¬ (m.m_MenuOpts.m_Togglable = true ∧ event.GetKey 0 = ' ') → IsEnter event →
      OnEvent m event = { m with m_selected := true } := by
    intro hn h
    have h0 : event.GetKey 0 ≠ '\x1b' := by
      rcases h with h | h <;> rw [h] <;> decide
    unfold IsEnter at h
    unfold OnEvent
    simp [hsel, h0, hn, h]
  have hO : (¬ IsEscape event 'A' ∧ ¬ IsEscape event 'B' ∧ ¬ IsEscape event '5' ∧
        ¬ IsEscape event '6' ∧ ¬ (m.m_MenuOpts.m_Togglable = true ∧ event.GetKey 0 = ' ') ∧
        ¬ IsEnter event) → OnEvent m event = m := by
    rintro ⟨nA, nB, n5, n6, nT, nE⟩
    unfold IsEscape at nA nB n5 n6
    unfold IsEnter at nE
    unfold OnEvent
    rw [if_neg (by simp [hsel]), if_neg nA, if_neg nB, if_neg n5, if_neg n6, if_neg nT,
      if_neg nE]
  have hnotT : IsEnter event → ¬ (m.m_MenuOpts.m_Togglable = true ∧ event.GetKey 0 = ' ') := by
    rintro (h | h) ⟨_, hs⟩ <;> rw [h] at hs <;> revert hs <;> decide
  refine ⟨hA, hB, h5, h6, hT, ⟨?_, fun h => by rw [hT h]; rfl⟩, fun h => hE (hnotT h) h,
    ⟨?_, fun h => by rw [hE (hnotT h) h]⟩, hO⟩
  · intro hd
    by_contra hn
    by_cases cA : IsEscape event 'A'
    · rw [hA cA] at hd
      simp [menu_driver] at hd
    by_cases cB : IsEscape event 'B'
    · rw [hB cB] at hd
      simp [menu_driver] at hd
    by_cases c5 : IsEscape event '5'
    · rw [h5 c5] at hd
      simp [menu_driver] at hd
    by_cases c6 : IsEscape event '6'
    · rw [h6 c6] at hd
      simp [menu_driver] at hd
    by_cases cE : IsEnter event
    · rw [hE hn cE] at hd
      exact append_singleton_ne_self _ _ hd
    · rw [hO ⟨cA, cB, c5, c6, hn, cE⟩] at hd
      exact append_singleton_ne_self _ _ hd
  · intro hs
    by_contra cE
    by_cases cA : IsEscape event 'A'
    · rw [hA cA] at hs
      simp [menu_driver, hsel] at hs
    by_cases cB : IsEscape event 'B'
    · rw [hB cB] at hs
      simp [menu_driver, hsel] at hs
    by_cases c5 : IsEscape event '5'
    · rw [h5 c5] at hs
      simp [menu_driver, hsel] at hs
    by_cases c6 : IsEscape event '6'
    · rw [h6 c6] at hs
      simp [menu_driver, hsel] at hs
    by_cases cT : m.m_MenuOpts.m_Togglable = true ∧ event.GetKey 0 = ' '
    · rw [hT cT] at hs
      simp [menu_driver, hsel] at hs
    · rw [hO ⟨cA, cB, c5, c6, cT, cE⟩, hsel] at hs
      exact Bool.noConfusion hs

theorem OnEvent_classifies_key_witness :
    (IsEscape upKey 'A' → OnEvent menuAB upKey = menu_driver menuAB .REQ_UP_ITEM) ∧
    (IsEscape upKey 'B' → OnEvent menuAB upKey = menu_driver menuAB .REQ_DOWN_ITEM) ∧
    (IsEscape upKey '5' → OnEvent menuAB upKey = menu_driver menuAB .REQ_SCR_UPAGE) ∧
    (IsEscape upKey '6' → OnEvent menuAB upKey = menu_driver menuAB .REQ_SCR_DPAGE) ∧
    ((menuAB.m_MenuOpts.m_Togglable = true ∧ upKey.GetKey 0 = ' ') →
      OnEvent menuAB upKey = menu_driver menuAB .REQ_TOGGLE_ITEM) ∧
    ((OnEvent menuAB upKey).driven = menuAB.driven ++ [.REQ_TOGGLE_ITEM] ↔
      (menuAB.m_MenuOpts.m_Togglable = true ∧ upKey.GetKey 0 = ' ')) ∧
    (IsEnter upKey → OnEvent menuAB upKey = { menuAB with m_selected := true }) ∧
    ((OnEvent menuAB upKey).m_selected = true ↔ IsEnter upKey) ∧
    ((¬ IsEscape upKey 'A' ∧ ¬ IsEscape upKey 'B' ∧ ¬ IsEscape upKey '5' ∧
        ¬ IsEscape upKey '6' ∧
        ¬ (menuAB.m_MenuOpts.m_Togglable = true ∧ upKey.GetKey 0 = ' ') ∧
        ¬ IsEnter upKey) →
      OnEvent menuAB upKey = menuAB) :=
  OnEvent_classifies_key menuAB upKey rfl

/-! ## The compositor: refreshing -/

theorem afterDestroyFirst_reachable : Reachable afterDestroyFirst := by
  have h : DestroyLayerFuel 4 threeLayers 0 = .ok afterDestroyFirst := rfl
  exact .destroyLayer threeLayers_reachable h

/-- C18: after three `CreateLayer` calls and `DestroyLayer(0)`, `m_OrderVector == {1, 2}`
over two layers: the entry 2 is no index into `m_Layers`, so `OnUpdate` reads
`m_Layers[2]` out of range; one more `CreateLayer` returns handle 2 again and leaves
`m_OrderVector == {1, 2, 2}`, where handle 2 appears twice and the layer at index 0 is
never refreshed. -/
theorem OnUpdate_out_of_range_after_DestroyLayer :
    Reachable afterDestroyFirst ∧
    DestroyLayer threeLayers 0 = .ok afterDestroyFirst ∧
    afterDestroyFirst.m_Layers.length = 2 ∧
    afterDestroyFirst.m_OrderVector = [1, 2] ∧
    OnUpdate afterDestroyFirst = .error .undefined ∧
    (∃ r3, CreateLayer afterDestroyFirst 4 24 80 0 0 = .ok (2, r3) ∧
      r3.m_OrderVector = [1, 2, 2] ∧ OnUpdate r3 = .ok [3, 4, 4]) := by
  refine ⟨afterDestroyFirst_reachable, rfl, rfl, rfl, rfl, _, rfl, rfl, rfl⟩

/-! ## Argument splitting -/

theorem maximalRuns_dropWhile (s : List Char) :
    maximalRuns (s.dropWhile isspace) = maximalRuns s := by
  induction s with
  | nil => rfl
  | cons c cs ih =>
    by_cases hc : isspace c = true
    · rw [List.dropWhile_cons_of_pos hc, ih]
      unfold maximalRuns
      rw [List.splitOnP_cons, if_pos hc]
      rfl
    · rw [List.dropWhile_cons_of_neg hc]

theorem splitOnP_append_run (p : Char → Bool) (w rest : List Char)
    (hw : ∀ c ∈ w, p c = false) :
    (w ++ rest).splitOnP p = (rest.splitOnP p).modifyHead (fun x => w ++ x) := by
  induction w with
  | nil =>
    cases h : rest.splitOnP p with
    | nil => simp [h]
    | cons a l => simp [h]
  | cons a w ih =>
    have ha : p a = false := hw a (List.mem_cons_self _ _)
    rw [List.cons_append, List.splitOnP_cons, if_neg (by simp [ha]),
      ih (fun c hc => hw c (List.mem_cons_of_mem _ hc)), List.modifyHead_modifyHead]
    rfl

theorem dropWhile_head_fails {p : Char → Bool} {l r : List Char} {a : Char}
    (h : l.dropWhile p = a :: r) : p a = false := by
  induction l with
  | nil => simp at h
  | cons b l ih =>
    by_cases hb : p b = true
    · rw [List.dropWhile_cons_of_pos hb] at h
      exact ih h
    · rw [List.dropWhile_cons_of_neg hb] at h
      injection h with h1 _
      rw [← h1]
      simpa using hb

theorem maximalRuns_run (s : List Char) (hne : s.takeWhile (fun x => !isspace x) ≠ []) :
    maximalRuns s = s.takeWhile (fun x => !isspace x)
      :: maximalRuns (s.dropWhile (fun x => !isspace x)) := by
  have hw : ∀ c ∈ s.takeWhile (fun x => !isspace x), isspace c = false := by
    intro c hc
    have := List.mem_takeWhile_imp hc
    simpa using this
  have hsplit := splitOnP_append_run isspace (s.takeWhile (fun x => !isspace x))
    (s.dropWhile (fun x => !isspace x)) hw
  rw [List.takeWhile_append_dropWhile] at hsplit
  unfold maximalRuns
  rw [hsplit]
  cases hr : s.dropWhile (fun x => !isspace x) with
  | nil =>
    simp [List.splitOnP_nil, hne]
  | cons a r =>
    have ha : isspace a = true := by
      have := dropWhile_head_fails hr
      simpa using this
    rw [List.splitOnP_cons, if_pos ha]
    simp [hne]

theorem extractWord_eq_none {stream : List Char} (h : extractWord stream = none) :
    stream.dropWhile isspace = [] := by
  unfold extractWord at h
  cases hd : stream.dropWhile isspace with
  | nil => rfl
  | cons c cs => rw [hd] at h; simp at h

theorem extractWord_eq_some {stream arg rest : List Char}
    (h : extractWord stream = some (arg, rest)) :
    arg = (stream.dropWhile isspace).takeWhile (fun x => !isspace x) ∧
    rest = (stream.dropWhile isspace).dropWhile (fun x => !isspace x) ∧
    arg ≠ [] ∧ rest.length < stream.length := by
  unfold extractWord at h
  cases hd : stream.dropWhile isspace with
  | nil => rw [hd] at h; simp at h
  | cons c cs =>
    rw [hd] at h
    simp only [Option.some.injEq, Prod.mk.injEq] at h
    have hc : isspace c = false := dropWhile_head_fails hd
    have hlen : (c :: cs).length ≤ stream.length := by
      rw [← hd]
      exact (List.dropWhile_suffix isspace).length_le
    refine ⟨h.1.symm, h.2.symm, ?_, ?_⟩
    · rw [← h.1, List.takeWhile_cons_of_pos (by simp [hc])]
      simp
    · rw [← h.2, List.dropWhile_cons_of_pos (by simp [hc])]
      have := (List.dropWhile_suffix (fun x => !isspace x) (l := cs)).length_le
      simp only [List.length_cons] at hlen
      omega

theorem extractAll_eq_maximalRuns (fuel : Nat) (stream : List Char)
    (hf : stream.length < fuel) : extractAll fuel stream = maximalRuns stream := by
  induction fuel generalizing stream with
  | zero => omega
  | succ n ih =>
    unfold extractAll
    cases he : extractWord stream with
    | none =>
      simp only
      rw [← maximalRuns_dropWhile, extractWord_eq_none he]
      rfl
    | some p =>
      obtain ⟨arg, rest⟩ := p
      obtain ⟨h1, h2, h3, h4⟩ := extractWord_eq_some he
      simp only
      have e1 : maximalRuns stream = maximalRuns (stream.dropWhile isspace) :=
        (maximalRuns_dropWhile stream).symm
      have e2 := maximalRuns_run (stream.dropWhile isspace) (by rw [← h1]; exact h3)
      rw [ih rest (by omega), e1, e2, ← h1, ← h2]

theorem filter_dropWhile_isspace (s : List Char) :
    (s.dropWhile isspace).filter (fun c => !isspace c) = s.filter (fun c => !isspace c) := by
  induction s with
  | nil => rfl
  | cons c cs ih =>
    by_cases hc : isspace c = true
    · rw [List.dropWhile_cons_of_pos hc, ih, List.filter_cons_of_neg (by simp [hc])]
    · rw [List.dropWhile_cons_of_neg hc]

theorem extractAll_flatten (fuel : Nat) (stream : List Char) (hf : stream.length < fuel) :
    (extractAll fuel stream).flatten = stream.filter (fun c => !isspace c) := by
  induction fuel generalizing stream with
  | zero => omega
  | succ n ih =>
    unfold extractAll
    cases he : extractWord stream with
    | none =>
      simp only
      rw [← filter_dropWhile_isspace, extractWord_eq_none he]
      rfl
    | some p =>
      obtain ⟨arg, rest⟩ := p
      obtain ⟨h1, h2, h3, h4⟩ := extractWord_eq_some he
      simp only
      rw [List.flatten_cons, ih rest (by omega), ← filter_dropWhile_isspace stream]
      conv_rhs =>
        rw [← List.takeWhile_append_dropWhile (fun x => !isspace x) (stream.dropWhile isspace)]
      rw [List.filter_append, ← h1, ← h2]
      congr 1
      rw [h1]
      refine (List.filter_eq_self.mpr (fun a ha => ?_)).symm
      have hp := List.mem_takeWhile_imp ha
      simpa using hp

theorem extractAll_words (fuel : Nat) (stream : List Char) :
    ∀ w ∈ extractAll fuel stream, w ≠ [] ∧ ∀ c ∈ w, isspace c = false := by
  induction fuel generalizing stream with
  | zero =>
    intro w hw
    simp [extractAll] at hw
  | succ n ih =>
    intro w hw
    unfold extractAll at hw
    cases he : extractWord stream with
    | none => rw [he] at hw; simp at hw
    | some p =>
      obtain ⟨arg, rest⟩ := p
      obtain ⟨h1, h2, h3, h4⟩ := extractWord_eq_some he
      rw [he] at hw
      simp only [List.mem_cons] at hw
      rcases hw with rfl | hw
      · refine ⟨h3, ?_⟩
        intro c hc
        rw [h1] at hc
        have := List.mem_takeWhile_imp hc
        simpa using this
      · exact ih rest w hw

/-- C14: `_ParseArguments` returns, in order, the maximal runs of non-whitespace
characters of its input: no returned argument is empty or contains a whitespace
character, and the arguments concatenated are the input without its whitespace. -/
theorem ParseArguments_splits_on_whitespace (args : List Char) :
    _ParseArguments args = maximalRuns args ∧
    (∀ w ∈ _ParseArguments args, w ≠ [] ∧ ∀ c ∈ w, isspace c = false) ∧
    (_ParseArguments args).flatten = args.filter (fun c => !isspace c) :=
  ⟨extractAll_eq_maximalRuns _ _ (Nat.lt_succ_self _), extractAll_words _ _,
    extractAll_flatten _ _ (Nat.lt_succ_self _)⟩

/-! ## The captured run -/

/-- C13 (as stated, refuted): for `cmd == "/bin/bash"` the child calls `execl` with the
argument string as one argument: `("/bin/bash", "-c ls")` gives
`["/bin/bash", "-c ls"]`, not `["/bin/bash", "-c", "ls"]`. -/
theorem RunCommand_bash_argv_not_split :
    execArgv (RunCommand "/bin/bash".toList (some "-c ls".toList) true .child [])
      = some ["/bin/bash".toList, "-c ls".toList] ∧
    "/bin/bash".toList :: _ParseArguments "-c ls".toList
      = ["/bin/bash".toList, "-c".toList, "ls".toList] ∧
    execArgv (RunCommand "/bin/bash".toList (some "-c ls".toList) true .child [])
      ≠ some ("/bin/bash".toList :: _ParseArguments "-c ls".toList) := by
  refine ⟨rfl, by decide, ?_⟩
  decide

/-- C13 (amended): for every program name other than `"/bin/bash"` the child hands
`execvp` the vector `cmd` followed by the elements of `_ParseArguments(args)` (of `""`
for a null `args`); for `"/bin/bash"` it hands `execl` the vector `cmd` followed by
`args` as one argument, unsplit. -/
theorem RunCommand_argv (cmd : List Char) (args : Option (List Char)) (piped : List Char)
    (hcmd : cmd ≠ "/bin/bash".toList) :
    RunCommand cmd args true .child piped
      = .exec (.execvp cmd (cmd :: _ParseArguments (args.getD []))) ∧
    execArgv (RunCommand cmd args true .child piped)
      = some (cmd :: maximalRuns (args.getD [])) ∧
    RunCommand "/bin/bash".toList args true .child piped
      = .exec (.execl "/bin/bash".toList ("/bin/bash".toList :: args.toList)) := by
  have h1 : RunCommand cmd args true .child piped
      = .exec (.execvp cmd (cmd :: _ParseArguments (args.getD []))) := by
    unfold RunCommand
    rw [if_neg (by decide)]
    simp only
    rw [if_pos hcmd]
  refine ⟨h1, ?_, ?_⟩
  · rw [h1]
    unfold execArgv
    rw [(ParseArguments_splits_on_whitespace _).1]
  · unfold RunCommand
    simp

theorem RunCommand_argv_witness :
    RunCommand "echo".toList (some "hello world".toList) true .child []
      = .exec (.execvp "echo".toList
          ("echo".toList :: _ParseArguments ((some "hello world".toList).getD []))) ∧
    execArgv (RunCommand "echo".toList (some "hello world".toList) true .child [])
      = some ("echo".toList :: maximalRuns ((some "hello world".toList).getD [])) ∧
    RunCommand "/bin/bash".toList (some "hello world".toList) true .child []
      = .exec (.execl "/bin/bash".toList
          ("/bin/bash".toList :: (some "hello world".toList).toList)) :=
  RunCommand_argv "echo".toList (some "hello world".toList) [] (by decide)

theorem RunCommand_echo_hello_world :
    execArgv (RunCommand "echo".toList (some "hello world".toList) true .child [])
      = some ["echo".toList, "hello".toList, "world".toList] := by
  decide

/-! ## Byte forwarding of the interactive run -/

theorem printCString_eq_self (chunk : List Byte) (h : ∀ b ∈ chunk, b ≠ 0) :
    printCString chunk = chunk := by
  unfold printCString
  rw [List.takeWhile_eq_self_iff]
  intro b hb
  simpa using h b hb

/-- A chunk read from the standard input is written to the master as it is. -/
theorem loopPass_stdin_chunk (b : Byte) (bs : List Byte) (s : Session) :
    loopPass (stdinPass (b :: bs)) s
      = (false, { s with toMaster := s.toMaster ++ (b :: bs) }) := by
  rfl

/-- A chunk read from the master reaches the display up to its first zero byte. -/
theorem loopPass_master_chunk (b : Byte) (bs : List Byte) (s : Session) :
    loopPass (masterPass (b :: bs)) s
      = (false, { s with display := s.display ++ (b :: bs).takeWhile (fun x => x != 0) }) := by
  rfl

/-- C15: a chunk `a \0 b` read from the master reaches the display as `a` only, because
`std::cout << buffer` ends at the first zero byte; the chunk `x \0 y` read from the
standard input is written to the master in full. -/
theorem RunInteractiveCommand_cuts_master_chunk_at_zero_byte :
    RunInteractiveCommand "cfdisk".toList "/dev/sda".toList (.parent 1 3)
        [masterPass [97, 0, 98], stdinPass [120, 0, 121], masterPass []] 0
        { tty := cookedMode }
      = (.returned 0, { tty := cookedMode, display := [97], toMaster := [120, 0, 121] }) ∧
    ([97] : List Byte) ≠ [97, 0, 98] := by
  refine ⟨rfl, by decide⟩

/-! ## Writing a file -/

theorem FileSystem.store_same (fs : FileSystem) (path content : List Char) :
    fs.store path content path = some content := by
  unfold FileSystem.store
  rw [if_pos rfl]

theorem FileSystem.store_other (fs : FileSystem) (path content p : List Char) (h : p ≠ path) :
    fs.store path content p = fs p := by
  unfold FileSystem.store
  rw [if_neg h]

theorem FileSystem.store_store (fs : FileSystem) (path c1 c2 : List Char) :
    (fs.store path c1).store path c2 = fs.store path c2 := by
  funext p
  unfold FileSystem.store
  by_cases h : p = path
  · rw [if_pos h, if_pos h]
  · rw [if_neg h, if_neg h, if_neg h]

/-- Once the file is open, what it holds afterwards is the part of the new content the
file took, whatever it held before and whether the call returns or throws: the content is
replaced, never appended to, and every other path is as before. -/
theorem WriteToFile_file_after (fs : FileSystem) (weather : StreamWeather)
    (filePath content : List Char) (ho : weather.openOk = true) :
    (WriteToFile fs weather filePath content).2
      = fs.store filePath (content.take weather.room) := by
  unfold WriteToFile
  rw [if_neg (by simp [ho])]
  simp only [FileSystem.store_store]
  split
  · split <;> rfl
  · rfl

/-- The call returns exactly when the file opens and either the content stays in the
buffer or the file takes all of it. -/
theorem WriteToFile_returns_iff (fs : FileSystem) (weather : StreamWeather)
    (filePath content : List Char) :
    (WriteToFile fs weather filePath content).1 = .ok () ↔
      (weather.openOk = true ∧
        (content.length < weather.writeThrough ∨ content.length ≤ weather.room)) := by
  unfold WriteToFile
  by_cases ho : weather.openOk = false
  · rw [if_pos ho]
    simp [ho]
  · rw [if_neg ho]
    have ho2 : weather.openOk = true := by simpa using ho
    simp only
    by_cases hw : weather.writeThrough ≤ content.length
    · rw [if_pos hw]
      by_cases hr : weather.room < content.length
      · rw [if_pos hr]
        constructor
        · intro h
          exact Except.noConfusion h
        · rintro ⟨_, h | h⟩ <;> omega
      · rw [if_neg hr]
        exact ⟨fun _ => ⟨ho2, Or.inr (by omega)⟩, fun _ => rfl⟩
    · rw [if_neg hw]
      exact ⟨fun _ => ⟨ho2, Or.inl (by omega)⟩, fun _ => rfl⟩

/-- When the file opens and takes the whole content, the call returns, the file holds
exactly the content and every other path is as before; a second such call on the same
path leaves exactly the second content. -/
theorem WriteToFile_when_room (fs : FileSystem) (w1 w2 : StreamWeather)
    (filePath content1 content2 : List Char)
    (ho1 : w1.openOk = true) (hr1 : content1.length ≤ w1.room)
    (ho2 : w2.openOk = true) (hr2 : content2.length ≤ w2.room) :
    (WriteToFile fs w1 filePath content1).1 = .ok () ∧
    (WriteToFile fs w1 filePath content1).2 filePath = some content1 ∧
    (∀ p, p ≠ filePath → (WriteToFile fs w1 filePath content1).2 p = fs p) ∧
    (WriteToFile (WriteToFile fs w1 filePath content1).2 w2 filePath content2).2
      = fs.store filePath content2 := by
  refine ⟨(WriteToFile_returns_iff _ _ _ _).mpr ⟨ho1, Or.inr hr1⟩, ?_, ?_, ?_⟩
  · rw [WriteToFile_file_after _ _ _ _ ho1, List.take_of_length_le hr1]
    exact FileSystem.store_same _ _ _
  · intro p hp
    rw [WriteToFile_file_after _ _ _ _ ho1]
    exact FileSystem.store_other _ _ _ _ hp
  · rw [WriteToFile_file_after _ _ _ _ ho2, WriteToFile_file_after _ _ _ _ ho1,
      FileSystem.store_store, List.take_of_length_le hr2]

/-- The call ends with an exception when the file cannot be opened, and when an insertion
that is written through meets a file that takes less than the content. -/
theorem WriteToFile_throws (fs : FileSystem) (weather : StreamWeather)
    (filePath content : List Char)
    (h : weather.openOk = false ∨
      (weather.writeThrough ≤ content.length ∧ weather.room < content.length)) :
    (WriteToFile fs weather filePath content).1 = .error .runtime_error := by
  unfold WriteToFile
  by_cases ho : weather.openOk = false
  · rw [if_pos ho]
  · rw [if_neg ho]
    rcases h with h | ⟨hw, hr⟩
    · exact absurd h ho
    · simp only
      rw [if_pos hw, if_pos hr]

/-- C16: writing `first` to `/etc/hostname` when the file takes two characters only: the
content stays in the buffer of the stream, the test `if (!fileStream)` finds the stream
good and the call returns, and the file holds `fi`. On a full disk the call returns too
and the file is empty. No exception reports the failed write, and the file of a
returning call does not hold the content. -/
theorem WriteToFile_returns_with_partial_file :
    (WriteToFile oneFile smallQuota "/etc/hostname".toList "first".toList).1 = .ok () ∧
    (WriteToFile oneFile smallQuota "/etc/hostname".toList "first".toList).2
      "/etc/hostname".toList = some "fi".toList ∧
    (WriteToFile oneFile fullDisk "/etc/hostname".toList "first".toList).1 = .ok () ∧
    (WriteToFile oneFile fullDisk "/etc/hostname".toList "first".toList).2
      "/etc/hostname".toList = some [] ∧
    "fi".toList ≠ "first".toList := by
  refine ⟨rfl, by decide, rfl, by decide, by decide⟩

/-- Writing `first` and then `second` to `/etc/hostname` in fair weather leaves
`second`, and a path never written has no file. -/
theorem WriteToFile_replaces_example :
    (WriteToFile (WriteToFile oneFile (fair "first".toList) "/etc/hostname".toList
        "first".toList).2 (fair "second".toList) "/etc/hostname".toList "second".toList).2
      "/etc/hostname".toList = some "second".toList ∧
    (WriteToFile oneFile (fair "first".toList) "/etc/hostname".toList "first".toList).2
      "/etc/locale.conf".toList = none := by
  refine ⟨by decide, by decide⟩

/-! ## Building the menu items -/

theorem getline_eq_some {stream line rest : List Char}
    (h : getline stream = some (line, rest)) :
    line = stream.takeWhile (fun x => x != '\n') ∧
    rest = (stream.dropWhile (fun x => x != '\n')).drop 1 ∧
    stream ≠ [] ∧ rest.length < stream.length := by
  unfold getline at h
  cases stream with
  | nil => simp at h
  | cons c cs =>
    simp only [Option.some.injEq, Prod.mk.injEq] at h
    refine ⟨h.1.symm, h.2.symm, by simp, ?_⟩
    rw [← h.2]
    have h1 := (List.dropWhile_suffix (fun x => x != '\n') (l := c :: cs)).length_le
    rw [List.length_drop]
    simp only [List.length_cons] at h1 ⊢
    omega

theorem buildItems_eq (weather : MenuWeather) (fuel : Nat) (stream : List Char)
    (held : List ITEM) (hf : stream.length < fuel)
    (hok : ∀ line ∈ getlines fuel stream, weather.accepts line = true) :
    buildItems weather fuel stream held
      = (held ++ (getlines fuel stream).map (fun line => { name := cString line }), none) := by
  induction fuel generalizing stream held with
  | zero => omega
  | succ n ih =>
    unfold buildItems
    unfold getlines at hok ⊢
    cases hg : getline stream with
    | none => simp
    | some p =>
      obtain ⟨line, rest⟩ := p
      obtain ⟨_, _, _, hlen⟩ := getline_eq_some hg
      rw [hg] at hok
      simp only at hok ⊢
      have hacc := hok line (List.mem_cons_self _ _)
      unfold MenuWeather.accepts at hacc
      rw [Bool.and_eq_true] at hacc
      rw [if_neg (by rw [hacc.1]; decide), if_neg (by rw [hacc.2]; decide),
        ih rest _ (by omega) (fun l hl => hok l (List.mem_cons_of_mem _ hl))]
      simp

theorem nonEmptyLines_eq_getlines (fuel : Nat) (text : List Char) (hf : text.length < fuel) :
    nonEmptyLines text = (getlines fuel text).filter (fun line => !line.isEmpty) := by
  induction fuel generalizing text with
  | zero => omega
  | succ n ih =>
    unfold getlines
    cases hg : getline text with
    | none =>
      unfold getline at hg
      cases text with
      | nil => rfl
      | cons c cs => simp at hg
    | some p =>
      obtain ⟨line, rest⟩ := p
      obtain ⟨h1, h2, _, hlen⟩ := getline_eq_some hg
      simp only
      rw [List.filter_cons, ← ih rest (by omega)]
      have hw : ∀ c ∈ text.takeWhile (fun x => x != '\n'), (fun c => c == '\n') c = false := by
        intro c hc
        have := List.mem_takeWhile_imp hc
        simpa using this
      have hsplit := splitOnP_append_run (fun c => c == '\n')
        (text.takeWhile (fun x => x != '\n')) (text.dropWhile (fun x => x != '\n')) hw
      rw [List.takeWhile_append_dropWhile] at hsplit
      unfold nonEmptyLines
      rw [hsplit, h2, h1]
      cases hr : text.dropWhile (fun x => x != '\n') with
      | nil =>
        simp only [List.splitOnP_nil, List.modifyHead_cons, List.append_nil, List.drop_nil,
          List.filter_cons, List.filter_nil]
        split <;> rfl
      | cons a r =>
        have ha : (a == '\n') = true := by
          have := dropWhile_head_fails hr
          simpa using this
        rw [List.splitOnP_cons, if_pos ha]
        simp only [List.modifyHead_cons, List.append_nil, List.filter_cons, List.drop_succ_cons,
          List.drop_zero]

theorem buildItems_eq_none (weather : MenuWeather) (fuel : Nat) (stream : List Char)
    (held0 held : List ITEM) (h : buildItems weather fuel stream held0 = (held, none)) :
    held = held0 ++ (getlines fuel stream).map (fun line => { name := cString line }) ∧
    ∀ line ∈ getlines fuel stream, weather.accepts line = true := by
  induction fuel generalizing stream held0 with
  | zero =>
    unfold buildItems at h
    simp at h
  | succ n ih =>
    unfold buildItems at h
    unfold getlines
    cases hg : getline stream with
    | none =>
      rw [hg] at h
      simp only [Prod.mk.injEq, and_true] at h
      simp [h]
    | some p =>
      obtain ⟨line, rest⟩ := p
      rw [hg] at h
      simp only at h ⊢
      by_cases hmk : weather.make_unique_ok (line.length + 1) = false
      · rw [if_pos hmk] at h
        simp at h
      · rw [if_neg hmk] at h
        by_cases hni : weather.new_item_ok (cString line) = false
        · rw [if_pos hni] at h
          simp at h
        · rw [if_neg hni] at h
          obtain ⟨h1, h2⟩ := ih rest _ h
          refine ⟨by rw [h1]; simp, ?_⟩
          intro l hl
          rcases List.mem_cons.mp hl with rfl | hl
          · unfold MenuWeather.accepts
            rw [Bool.and_eq_true]
            exact ⟨by simpa using hmk, by simpa using hni⟩
          · exact h2 l hl

theorem Init_eq_true {weather : MenuWeather} {m : Menu} {items : List Char}
    (h : (Init weather m items).1 = true) :
    itemNames (Init weather m items).2
      = m.m_MenuItems.map (fun item => item.name)
        ++ (getlines (items.length + 1) items).map cString ∧
    (∀ line ∈ getlines (items.length + 1) items, weather.accepts line = true) ∧
    weather.calloc_ok = true ∧ weather.new_menu_ok = true := by
  unfold Init at h ⊢
  rcases hb : buildItems weather (items.length + 1) items m.m_MenuItems with
    ⟨held, fault⟩
  rw [hb] at h
  cases fault with
  | some e => simp at h
  | none =>
    obtain ⟨h1, h2⟩ := buildItems_eq_none _ _ _ _ _ hb
    simp only at h ⊢
    by_cases hc : weather.calloc_ok = false
    · rw [if_pos hc] at h
      simp at h
    · rw [if_neg hc] at h ⊢
      by_cases hm : weather.new_menu_ok = false
      · rw [if_pos hm] at h
        simp at h
      · rw [if_neg hm]
        refine ⟨?_, h2, by simpa using hc, by simpa using hm⟩
        simp only [itemNames, h1, List.map_append, List.map_map]
        congr 1

theorem Init_of_accepted {weather : MenuWeather} {m : Menu} {items : List Char}
    (hitem : ∀ line ∈ getlines (items.length + 1) items, weather.accepts line = true)
    (hcalloc : weather.calloc_ok = true) (hmenu : weather.new_menu_ok = true) :
    (Init weather m items).1 = true := by
  have hb := buildItems_eq weather (items.length + 1) items m.m_MenuItems
    (Nat.lt_succ_self _) hitem
  unfold Init
  rw [hb]
  simp [hcalloc, hmenu]

theorem cString_eq_self (line : List Char) (h : '\x00' ∉ line) : cString line = line := by
  unfold cString
  rw [List.takeWhile_eq_self_iff]
  intro c hc
  have hne : c ≠ '\x00' := fun e => h (e ▸ hc)
  simpa using hne

/-- C12 (as stated, refuted): whatever the allocator and ncurses answer, `Init` on the
text `a`, empty line, `b` does not succeed with the item names `a`, `b`: it fails at the
empty line or builds an item for it; with ncurses, whose `new_item` returns a null
pointer for an empty name, it returns `false`. -/
theorem Init_empty_line_not_skipped :
    nonEmptyLines "a\n\nb".toList = ["a".toList, "b".toList] ∧
    (¬ ∃ weather : MenuWeather, (Init weather {} "a\n\nb".toList).1 = true ∧
      itemNames (Init weather {} "a\n\nb".toList).2 = nonEmptyLines "a\n\nb".toList) ∧
    (Init ncursesFair {} "a\n\nb".toList).1 = false := by
  refine ⟨by decide, ?_, by decide⟩
  rintro ⟨weather, h1, h2⟩
  rw [(Init_eq_true h1).1] at h2
  revert h2
  decide

/-- C12 (amended): `Init` on a freshly constructed menu builds one item per line that
`std::getline` yields, empty lines included, in order, each named by the line up to its
first zero byte. With memory available for the line and the growth of the two vectors,
it returns `true` exactly when `make_unique` and `new_item` succeed for every line and
`calloc` and `new_menu` succeed; the item names are then the lines, each cut at its
first zero byte, and, when no line is empty or holds a zero byte, exactly the non-empty
lines of the text. An empty line is not skipped: its empty name is handed to `new_item`,
and `Init` returns `false` when `new_item` returns a null pointer for it. -/
theorem Init_builds_one_item_per_line (weather : MenuWeather) (m : Menu) (items : List Char)
    (hfresh : m.m_MenuItems = []) :
    ((Init weather m items).1 = true ↔
      ((∀ line ∈ getlines (items.length + 1) items, weather.accepts line = true) ∧
        weather.calloc_ok = true ∧ weather.new_menu_ok = true)) ∧
    ((Init weather m items).1 = true →
      itemNames (Init weather m items).2 = (getlines (items.length + 1) items).map cString) ∧
    ((Init weather m items).1 = true →
      (∀ line ∈ getlines (items.length + 1) items, line ≠ [] ∧ '\x00' ∉ line) →
      itemNames (Init weather m items).2 = nonEmptyLines items) ∧
    ([] ∈ getlines (items.length + 1) items → weather.new_item_ok [] = false →
      (Init weather m items).1 = false) := by
  have hnames : (Init weather m items).1 = true →
      itemNames (Init weather m items).2
        = (getlines (items.length + 1) items).map cString := by
    intro h
    rw [(Init_eq_true h).1, hfresh]
    rfl
  refine ⟨⟨fun h => (Init_eq_true h).2, fun h => Init_of_accepted h.1 h.2.1 h.2.2⟩,
    hnames, ?_, ?_⟩
  swap
  · intro hmem hnull
    cases hres : (Init weather m items).1 with
    | false => rfl
    | true =>
      have hacc := (Init_eq_true hres).2.1 [] hmem
      unfold MenuWeather.accepts at hacc
      rw [Bool.and_eq_true] at hacc
      have h2 : weather.new_item_ok [] = true := hacc.2
      rw [hnull] at h2
      exact absurd h2 (by decide)
  intro h hlines
  rw [hnames h, nonEmptyLines_eq_getlines _ _ (Nat.lt_succ_self _)]
  have h1 : (getlines (items.length + 1) items).map cString
      = getlines (items.length + 1) items := by
    conv_rhs => rw [← List.map_id (getlines (items.length + 1) items)]
    apply List.map_congr_left
    intro line hl
    exact cString_eq_self line (hlines line hl).2
  have h2 : (getlines (items.length + 1) items).filter (fun line => !line.isEmpty)
      = getlines (items.length + 1) items := by
    rw [List.filter_eq_self]
    intro line hl
    have := (hlines line hl).1
    cases line with
    | nil => exact absurd rfl this
    | cons c cs => rfl
  rw [h1, h2]

theorem Init_builds_one_item_per_line_witness :
    ((Init ncursesFair {} "a\nb\n".toList).1 = true ↔
      ((∀ line ∈ getlines ("a\nb\n".toList.length + 1) "a\nb\n".toList,
          ncursesFair.accepts line = true) ∧
        ncursesFair.calloc_ok = true ∧ ncursesFair.new_menu_ok = true)) ∧
    ((Init ncursesFair {} "a\nb\n".toList).1 = true →
      itemNames (Init ncursesFair {} "a\nb\n".toList).2
        = (getlines ("a\nb\n".toList.length + 1) "a\nb\n".toList).map cString) ∧
    ((Init ncursesFair {} "a\nb\n".toList).1 = true →
      (∀ line ∈ getlines ("a\nb\n".toList.length + 1) "a\nb\n".toList,
        line ≠ [] ∧ '\x00' ∉ line) →
      itemNames (Init ncursesFair {} "a\nb\n".toList).2 = nonEmptyLines "a\nb\n".toList) ∧
    ([] ∈ getlines ("a\nb\n".toList.length + 1) "a\nb\n".toList →
      ncursesFair.new_item_ok [] = false → (Init ncursesFair {} "a\nb\n".toList).1 = false) :=
  Init_builds_one_item_per_line ncursesFair {} "a\nb\n".toList rfl

/-- On the line `a \0 b` the item is named `a`: `strcpy` ends at the zero byte. An empty
line makes `Init` fail with ncurses, and so does a line holding a tab. -/
theorem Init_examples :
    (Init ncursesFair {} "a\x00b\n".toList).1 = true ∧
    itemNames (Init ncursesFair {} "a\x00b\n".toList).2 = ["a".toList] ∧
    (Init ncursesFair {} "a\nb\n".toList).1 = true ∧
    itemNames (Init ncursesFair {} "a\nb\n".toList).2 = ["a".toList, "b".toList] ∧
    (Init ncursesFair {} "a\n\nb".toList).1 = false ∧
    (Init ncursesFair {} "a\tb\n".toList).1 = false := by
  refine ⟨by decide, by decide, by decide, by decide, by decide, by decide⟩

/-! ## The package selection -/

set_option maxRecDepth 100000 in
/-- The menu `Init` builds from the offered text has the offered packages as its items. -/
theorem Init_offeredText :
    (Init ncursesFair {} offeredText).1 = true ∧
    itemNames (Init ncursesFair {} offeredText).2 = offeredPackages := by
  refine ⟨by decide, by decide⟩

set_option maxRecDepth 100000 in
/-- With `less` marked, a name no earlier entry contains, the argument string is the one
of the unmarked packages. -/
theorem installArgs_less : installArgs onlyLess = .ok (unmarkedArgs onlyLess) := by
  rfl

set_option maxRecDepth 100000 in
theorem installArgs_onlyOpenvpn :
    installArgs onlyOpenvpn = .ok ("-S NetworkManager less curl base-devel usbutils ".toList ++
      "reflector wget htop git networkmanager networkmanager-network-manager-applet ".toList ++
      "openvpn pacman-contrib neofetch xorg-xrandr spotify-launcher libreoffice flatpak ".toList ++
      "xdg-desktop-portal okular ntfs-3g python-pip python-pipx xdg-utils ddcutil ".toList ++
      "yakuake gnome-calculator gnome-text-editor nautilus-share nautilus gvfs-smb ".toList) := by
  rfl

set_option maxRecDepth 100000 in
theorem installArgs_onlyNautilus :
    installArgs onlyNautilus = .ok ("-S NetworkManager less curl base-devel usbutils ".toList ++
      "reflector wget htop git networkmanager networkmanager-openvpn ".toList ++
      "network-manager-applet openvpn pacman-contrib neofetch xorg-xrandr ".toList ++
      "spotify-launcher libreoffice flatpak xdg-desktop-portal okular ntfs-3g ".toList ++
      "python-pip python-pipx xdg-utils ddcutil yakuake gnome-calculator ".toList ++
      "gnome-text-editor share nautilus gvfs-smb ".toList) := by
  rfl

set_option maxRecDepth 100000 in
/-- C20: with only `openvpn` marked, `args.find("openvpn")` hits the earlier entry
`networkmanager-openvpn`, whose tail is erased: the argument string holds
`networkmanager-network-manager-applet`, a name never offered, and still holds
`openvpn`. With only `nautilus` marked the entry `nautilus-share` is cut down to
`share` and `nautilus` stays. Neither string is the one of the unmarked packages. -/
theorem installArgs_erases_first_substring_match :
    GetSelected (packagesMenu onlyOpenvpn) = .ok "openvpn ".toList ∧
    installArgs onlyOpenvpn = .ok ("-S NetworkManager less curl base-devel usbutils ".toList ++
      "reflector wget htop git networkmanager networkmanager-network-manager-applet ".toList ++
      "openvpn pacman-contrib neofetch xorg-xrandr spotify-launcher libreoffice flatpak ".toList ++
      "xdg-desktop-portal okular ntfs-3g python-pip python-pipx xdg-utils ddcutil ".toList ++
      "yakuake gnome-calculator gnome-text-editor nautilus-share nautilus gvfs-smb ".toList) ∧
    installArgs onlyOpenvpn ≠ .ok (unmarkedArgs onlyOpenvpn) ∧
    installArgs onlyNautilus = .ok ("-S NetworkManager less curl base-devel usbutils ".toList ++
      "reflector wget htop git networkmanager networkmanager-openvpn ".toList ++
      "network-manager-applet openvpn pacman-contrib neofetch xorg-xrandr ".toList ++
      "spotify-launcher libreoffice flatpak xdg-desktop-portal okular ntfs-3g ".toList ++
      "python-pip python-pipx xdg-utils ddcutil yakuake gnome-calculator ".toList ++
      "gnome-text-editor share nautilus gvfs-smb ".toList) ∧
    installArgs onlyNautilus ≠ .ok (unmarkedArgs onlyNautilus) := by
  refine ⟨rfl, installArgs_onlyOpenvpn, ?_, installArgs_onlyNautilus, ?_⟩
  · rw [installArgs_onlyOpenvpn]
    intro h
    injection h with h
    revert h
    decide
  · rw [installArgs_onlyNautilus]
    intro h
    injection h with h
    revert h
    decide

/-! ## The steps in debug mode -/

theorem DryOnly_append {r : Run} (h : DryOnly r) (line : List Char) :
    DryOnly { r with trace := r.trace ++ [.DryRun line] } := by
  refine ⟨h.1, ?_⟩
  intro e he
  rcases List.mem_append.mp he with hm | hm
  · exact h.2 e hm
  · rw [List.mem_singleton.mp hm]
    rfl

theorem DryOnly_throw {r : Run} (h : DryOnly r) (e : Option Fault) :
    DryOnly { r with thrown := e } := h

theorem throwIf_dry (cond : Bool) (e : Fault) {r : Run} (h : DryOnly r) :
    DryOnly (throwIf cond e r) := by
  unfold throwIf
  cases r.thrown with
  | some x => exact h
  | none =>
    cases cond
    · exact h
    · exact h

theorem RunCommand_dry (op : Operator) (command args : List Char) {r : Run} (h : DryOnly r) :
    DryOnly (_RunCommand op command args r) := by
  unfold _RunCommand
  cases r.thrown with
  | some x => exact h
  | none =>
    simp only [h.1, if_true]
    exact DryOnly_append h _

theorem RunInteractiveCommand_dry (op : Operator) (command args : List Char) {r : Run}
    (h : DryOnly r) : DryOnly (_RunInteractiveCommand op command args r) := by
  unfold _RunInteractiveCommand
  cases r.thrown with
  | some x => exact h
  | none =>
    simp only [h.1, if_true]
    exact DryOnly_append h _

theorem WriteToFile_dry (op : Operator) (file content : List Char) {r : Run}
    (h : DryOnly r) : DryOnly (_WriteToFile op file content r) := by
  unfold _WriteToFile
  cases r.thrown with
  | some x => exact h
  | none =>
    simp only [h.1, if_true]
    exact DryOnly_append h _

/-- In debug mode `Step2` reaches the operating system through no `CLI` call: every
effect it adds is a dry-run line. -/
theorem Step2_dry (op : Operator) {r : Run} (h : DryOnly r) : DryOnly (Step2 op r) := by
  unfold Step2 _InstallPackages _SelectMirrors
  have h1 := RunCommand_dry op "reflector".toList
    "--verbose --latest 5 --sort rate --save /etc/pacman.d/mirrorlist".toList h
  have h2 := RunCommand_dry op "pacstrap".toList
    "/mnt base linux linux-firmware linux-lts".toList h1
  have h3 := RunCommand_dry op "arch-chroot".toList "/mnt".toList h2
  simp only
  split
  · exact h3
  · split
    · exact DryOnly_throw h3 _
    · exact RunCommand_dry op _ _ (RunInteractiveCommand_dry op _ _ h3)

theorem writeAndEdit_dry (op : Operator) (command content : List Char) {r : Run}
    (h : DryOnly r) : DryOnly (writeAndEdit op command content r) := by
  unfold writeAndEdit
  exact RunInteractiveCommand_dry op _ _ (WriteToFile_dry op _ _ h)

/-- In debug mode `Step3` reaches the operating system through no `CLI` call: every
effect it adds is a dry-run line. -/
theorem Step3_dry (op : Operator) {r : Run} (h : DryOnly r) : DryOnly (Step3 op r) := by
  unfold Step3
  have h1 : DryOnly (_Chroot op r) := RunCommand_dry op _ _ h
  have h2 : DryOnly (_TimeZone op (_Chroot op r)) :=
    RunCommand_dry op _ _ (RunCommand_dry op _ _ h1)
  have h3 : DryOnly (_Localization op (_TimeZone op (_Chroot op r))) :=
    WriteToFile_dry op _ _ (WriteToFile_dry op _ _
      (RunCommand_dry op _ _ (RunInteractiveCommand_dry op _ _ h2)))
  have h4 : DryOnly (_NetworkConfiguration op
      (_Localization op (_TimeZone op (_Chroot op r)))) := WriteToFile_dry op _ _ h3
  have h5 : DryOnly (_Initramfs op (_NetworkConfiguration op
      (_Localization op (_TimeZone op (_Chroot op r))))) := RunCommand_dry op _ _ h4
  have h6 : DryOnly (_Accounts op (_Initramfs op (_NetworkConfiguration op
      (_Localization op (_TimeZone op (_Chroot op r)))))) :=
    RunInteractiveCommand_dry op _ _ (RunCommand_dry op _ _
      (RunInteractiveCommand_dry op _ _ h5))
  unfold _BootLoader
  exact writeAndEdit_dry op _ _ (writeAndEdit_dry op _ _ (writeAndEdit_dry op _ _
    (writeAndEdit_dry op _ _ (writeAndEdit_dry op _ _ (RunCommand_dry op _ _ h6)))))

theorem callCli_keeps (op : Operator) (e x : Effect) (r : Run) (h : x ∈ r.trace) :
    x ∈ (callCli op e r).trace := by
  unfold callCli
  cases r.thrown with
  | some f => exact h
  | none => exact List.mem_append_left _ h

theorem throwIf_keeps (cond : Bool) (f : Fault) (x : Effect) (r : Run) (h : x ∈ r.trace) :
    x ∈ (throwIf cond f r).trace := by
  unfold throwIf
  cases r.thrown with
  | some g => exact h
  | none =>
    cases cond
    · exact h
    · exact h

theorem RunCommand_keeps (op : Operator) (command args : List Char) (x : Effect) (r : Run)
    (h : x ∈ r.trace) : x ∈ (_RunCommand op command args r).trace := by
  unfold _RunCommand
  cases hr : r.thrown with
  | some g => exact h
  | none =>
    simp only
    split
    · exact List.mem_append_left _ h
    · exact callCli_keeps op _ x r h

theorem RunInteractiveCommand_keeps (op : Operator) (command args : List Char) (x : Effect)
    (r : Run) (h : x ∈ r.trace) : x ∈ (_RunInteractiveCommand op command args r).trace := by
  unfold _RunInteractiveCommand
  cases hr : r.thrown with
  | some g => exact h
  | none =>
    simp only
    split
    · exact List.mem_append_left _ h
    · exact callCli_keeps op _ x r h

theorem setKeymap_trace (keymap : List Char) (r : Run) :
    (setKeymap keymap r).trace = r.trace := by
  unfold setKeymap
  cases r.thrown <;> rfl

theorem setTimezone_trace (timezone : List Char) (r : Run) :
    (setTimezone timezone r).trace = r.trace := by
  unfold setTimezone
  cases r.thrown <;> rfl

theorem KBLayout_calls_localectl (op : Operator) (r : Run) (h : r.thrown = none) :
    Effect.RunCommand "localectl".toList (some "list-keymaps".toList)
      ∈ (_KBLayout op r).trace := by
  unfold _KBLayout
  apply RunCommand_keeps
  rw [setKeymap_trace]
  apply throwIf_keeps
  unfold callCli
  rw [h]
  exact List.mem_append_right _ (List.mem_singleton.mpr rfl)

theorem SystemClock_keeps (op : Operator) (x : Effect) (r : Run) (h : x ∈ r.trace) :
    x ∈ (_SystemClock op r).trace := by
  unfold _SystemClock
  apply RunCommand_keeps
  rw [setTimezone_trace]
  apply throwIf_keeps
  exact callCli_keeps op _ x r h

theorem PartitionDisks_keeps (op : Operator) (x : Effect) (r : Run) (h : x ∈ r.trace) :
    x ∈ (_PartitionDisks op r).trace := by
  unfold _PartitionDisks
  have h2 := throwIf_keeps op.disks.isEmpty .runtime_error x _
    (callCli_keeps op (.RunCommand "lsblk".toList none) x r h)
  simp only
  split
  · exact h2
  · split
    · exact h2
    · exact RunInteractiveCommand_keeps op _ _ x _
        (RunInteractiveCommand_keeps op _ _ x _ h2)

/-- Whatever the system and the operator answer, and in debug mode too, `Step1` calls
`CLI::RunCommand("localectl", "list-keymaps")`. -/
theorem Step1_calls_localectl (op : Operator) (self : Installer) :
    Effect.RunCommand "localectl".toList (some "list-keymaps".toList)
      ∈ (Step1 op { self := self }).trace := by
  unfold Step1
  exact PartitionDisks_keeps op _ _ (SystemClock_keeps op _ _
    (KBLayout_calls_localectl op _ rfl))

/-- C17: `Step1` in debug mode calls `CLI::RunCommand` three times, for
`localectl list-keymaps`, `timedatectl list-timezones` and `lsblk`, between the dry-run
lines of `loadkeys`, `timedatectl set-timezone`, `cfdisk` and `bash`. -/
theorem Step1_debug_runs_commands :
    debugInstaller.m_Debug = true ∧
    (Step1 sampleOperator { self := debugInstaller }).trace =
      [ .RunCommand "localectl".toList (some "list-keymaps".toList),
        .DryRun "Dry Run: loadkeys us".toList,
        .RunCommand "timedatectl".toList (some "list-timezones".toList),
        .DryRun "Dry Run: timedatectl set-timezone Europe/Berlin".toList,
        .RunCommand "lsblk".toList none,
        .DryRun "Dry Run: cfdisk /dev/sda".toList,
        .DryRun "Dry Run: bash ".toList ] ∧
    ¬ DryOnly (Step1 sampleOperator { self := debugInstaller }) := by
  have ht : (Step1 sampleOperator { self := debugInstaller }).trace =
      [ .RunCommand "localectl".toList (some "list-keymaps".toList),
        .DryRun "Dry Run: loadkeys us".toList,
        .RunCommand "timedatectl".toList (some "list-timezones".toList),
        .DryRun "Dry Run: timedatectl set-timezone Europe/Berlin".toList,
        .RunCommand "lsblk".toList none,
        .DryRun "Dry Run: cfdisk /dev/sda".toList,
        .DryRun "Dry Run: bash ".toList ] := by
    rfl
  refine ⟨rfl, ht, ?_⟩
  intro h
  have := h.2 _ (Step1_calls_localectl sampleOperator debugInstaller)
  exact Bool.noConfusion this

/-! ## The device name of a menu line -/

/-- On a line that starts with a tree character and holds a character outside the set,
the result is the run after the leading tree characters up to the first space or the
end of the line. -/
theorem ExtractDiskOrPartitionName_tree_line (line : List Char) (hs : StartsTree line)
    (hc : ∃ c ∈ line, treeChar c = false) :
    ExtractDiskOrPartitionName line
      = .ok ((line.dropWhile treeChar).takeWhile (fun x => x != ' ')) := by
  unfold ExtractDiskOrPartitionName
  rw [if_pos (show line.head? = some '|' ∨ line.head? = some '\x60' from hs)]
  have hd : line.dropWhile (fun c => c == '|' || c == '\x60' || c == '-')
      = line.dropWhile treeChar := rfl
  rw [hd]
  cases hdr : line.dropWhile treeChar with
  | nil =>
    obtain ⟨c, hcm, hcf⟩ := hc
    have := List.dropWhile_eq_nil_iff.mp hdr c hcm
    rw [hcf] at this
    exact Bool.noConfusion this
  | cons a r => rfl

/-- On a line that does not start with a tree character the result is the first
whitespace-delimited word, the empty string if there is none. -/
theorem ExtractDiskOrPartitionName_plain_line (line : List Char) (hs : ¬ StartsTree line) :
    ExtractDiskOrPartitionName line = .ok ((maximalRuns line).headD []) := by
  unfold ExtractDiskOrPartitionName
  rw [if_neg (show ¬ (line.head? = some '|' ∨ line.head? = some '\x60') from hs)]
  have h := extractAll_eq_maximalRuns (line.length + 1) line (Nat.lt_succ_self _)
  unfold extractAll at h
  cases he : extractWord line with
  | none =>
    rw [he] at h
    simp only at h ⊢
    rw [← h]
    rfl
  | some p =>
    obtain ⟨w, rest⟩ := p
    rw [he] at h
    simp only at h ⊢
    rw [← h]
    rfl

/-- The call ends with an exception exactly on the lines that start with a tree character
and hold tree characters only. -/
theorem ExtractDiskOrPartitionName_throws_iff (line : List Char) :
    ExtractDiskOrPartitionName line = .error .out_of_range ↔
      (StartsTree line ∧ ∀ c ∈ line, treeChar c = true) := by
  constructor
  · intro h
    by_cases hs : StartsTree line
    · refine ⟨hs, ?_⟩
      by_contra hn
      have hc : ∃ c ∈ line, treeChar c = false := by
        by_contra hno
        apply hn
        intro c hcm
        cases ht : treeChar c with
        | true => rfl
        | false => exact absurd ⟨c, hcm, ht⟩ hno
      rw [ExtractDiskOrPartitionName_tree_line line hs hc] at h
      exact Except.noConfusion h
    · rw [ExtractDiskOrPartitionName_plain_line line hs] at h
      exact Except.noConfusion h
  · rintro ⟨hs, hall⟩
    unfold ExtractDiskOrPartitionName
    rw [if_pos (show line.head? = some '|' ∨ line.head? = some '\x60' from hs)]
    have hd : line.dropWhile (fun c => c == '|' || c == '\x60' || c == '-') = [] :=
      List.dropWhile_eq_nil_iff.mpr hall
    rw [hd]

/-- C21: on the line `|-`, which holds tree characters only, `find_first_not_of` gives
`npos` and `substr` throws `std::out_of_range`: the call returns no string, and
`_PartitionDisks` ends with that exception before `cfdisk` is reached. The empty line
gives the empty string, `|-sda1 8:1` gives `sda1` and `sda 8:0` gives `sda`. -/
theorem ExtractDiskOrPartitionName_throws_on_tree_only_line :
    ExtractDiskOrPartitionName "|-".toList = .error .out_of_range ∧
    (¬ ∃ name, ExtractDiskOrPartitionName "|-".toList = .ok name) ∧
    (_PartitionDisks treeOnlyOperator { self := {} }).thrown = some .out_of_range ∧
    ExtractDiskOrPartitionName [] = .ok [] ∧
    ExtractDiskOrPartitionName "|-sda1 8:1".toList = .ok "sda1".toList ∧
    ExtractDiskOrPartitionName "\x60-sda2".toList = .ok "sda2".toList ∧
    ExtractDiskOrPartitionName "sda 8:0".toList = .ok "sda".toList := by
  refine ⟨rfl, ?_, rfl, rfl, rfl, rfl, rfl⟩
  rintro ⟨name, h⟩
  have h2 : ExtractDiskOrPartitionName "|-".toList = .error .out_of_range := rfl
  rw [h2] at h
  exact Except.noConfusion h

end ArchInstaller
